import Mathlib

set_option autoImplicit false

/-!
Verification development for the higher-order unifier core
(src/src/library/unifier.cpp).

The development shallowly embeds the unifier into Lean.  The kernel-side
collaborators (term representation helpers, the substitution class, the
type checker, the name generator) are not part of the repository source;
the spec declares them external interfaces, so they are modelled from the
spec's data-model section: expressions, universe levels, justifications
and the persistent substitution are concrete inductive types here, and the
type checker is an oracle record of pure functions.  Everything that lives
in unifier.cpp itself (the simple unifier, the constraint queue, the main
engine, higher-order branching, conflict resolution, the entry points) is
translated line by line from that file.
-/

namespace Unif

/-- Names are opaque identifiers with decidable equality; modelled as
naturals (modelled from the spec: name generators are out of scope). -/
abbrev Name := Nat

/-- The name generator: a counter handing out fresh naturals.  Modelled
from the spec: name/metavariable generators are external collaborators. -/
abbrev NameGen := Nat

/-- m_ngen.next(): produce a name and the advanced generator. -/
def NameGen.next (g : NameGen) : Name × NameGen := (g, g + 1)

/-- m_ngen.mk_child(): produce a child generator and advance the parent.
Modelled from the spec (the hierarchical name structure is irrelevant to
the claims; only advancement is kept). -/
def NameGen.mkChild (g : NameGen) : NameGen × NameGen := (g, g + 1)

/-- Binder annotations are opaque to the unifier; they are only carried
around (update_binding, mk_lambda preserve them). -/
abbrev BinderInfo := Nat

/-- Universe levels, spec section 3: zero, successor, max, imax,
parameter, meta. -/
inductive Level where
  | zero : Level
  | succ (l : Level) : Level
  | maxL (a b : Level) : Level
  | imaxL (a b : Level) : Level
  | param (n : Name) : Level
  | meta (n : Name) : Level
deriving DecidableEq, Repr

namespace Level

/-- is_meta for levels: the node itself is a level metavariable. -/
def isMeta : Level → Bool
  | .meta _ => true
  | _ => false

/-- meta_id. -/
def metaId : Level → Name
  | .meta n => n
  | _ => 0

/-- is_succ. -/
def isSucc : Level → Bool
  | .succ _ => true
  | _ => false

/-- succ_of. -/
def succOf : Level → Level
  | .succ l => l
  | l => l

/-- has_meta: the level contains a level metavariable. -/
def hasMeta : Level → Bool
  | .zero => false
  | .succ l => l.hasMeta
  | .maxL a b => a.hasMeta || b.hasMeta
  | .imaxL a b => a.hasMeta || b.hasMeta
  | .param _ => false
  | .meta _ => true

end Level

/-- occurs(m, e) for levels (unifier.cpp lines 111-125): m occurs as a
subterm of e.  The for_each traversal checks l == m at every subterm,
pruning on has_meta; the pruning cannot hide an occurrence, so plain
subterm containment is the translation. -/
def occursLvl (m : Level) : Level → Bool
  | .zero => m = .zero
  | .succ l => m = .succ l || occursLvl m l
  | .maxL a b => m = .maxL a b || occursLvl m a || occursLvl m b
  | .imaxL a b => m = .imaxL a b || occursLvl m a || occursLvl m b
  | .param n => m = .param n
  | .meta n => m = .meta n

/-- Justifications, spec section 3: atomic, assumption(k), composite;
plus the empty justification (the C++ default-constructed
justification()). -/
inductive Justification where
  | noneJ : Justification
  | atomic (id : Nat) : Justification
  | assumption (k : Nat) : Justification
  | composite (a b : Justification) : Justification
deriving DecidableEq, Repr

namespace Justification

/-- mk_composite1: composition absorbing the empty justification
(spec: composite(J, empty) = J). -/
def comp1 : Justification → Justification → Justification
  | .noneJ, b => b
  | a, .noneJ => a
  | a, b => .composite a b

/-- depends_on(J, k): some leaf is assumption(k). -/
def dependsOn : Justification → Nat → Bool
  | .noneJ, _ => false
  | .atomic _, _ => false
  | .assumption k, i => k = i
  | .composite a b, i => a.dependsOn i || b.dependsOn i

end Justification

mutual
/-- Expressions, spec section 3: bound variable (de Bruijn), free local
constant (unique name + pretty name + type), metavariable (name + type),
constant (name + universe arguments), sort, lambda and pi binders,
application, and the opaque macro node (symbol identity + arguments).
Equality is structural. -/
inductive Expr where
  | var (idx : Nat) : Expr
  | localE (n : Name) (ppn : Name) (ty : Expr) : Expr
  | meta (n : Name) (ty : Expr) : Expr
  | const (n : Name) (lvls : List Level) : Expr
  | sort (l : Level) : Expr
  | lam (n : Name) (dom : Expr) (body : Expr) (bi : BinderInfo) : Expr
  | pi (n : Name) (dom : Expr) (body : Expr) (bi : BinderInfo) : Expr
  | app (f : Expr) (a : Expr) : Expr
  | mac (d : Name) (args : ExprList) : Expr
deriving DecidableEq, Repr

/-- Argument lists of macro expressions (kept as a mutual inductive so
that structural recursion and decidable equality go through). -/
inductive ExprList where
  | nil : ExprList
  | cons (a : Expr) (as : ExprList) : ExprList
deriving DecidableEq, Repr
end

namespace ExprList

/-- Convert a macro argument list to an ordinary list. -/
def toList : ExprList → List Expr
  | .nil => []
  | .cons a as => a :: toList as

/-- Build a macro argument list from an ordinary list. -/
def ofList : List Expr → ExprList
  | [] => .nil
  | a :: as => .cons a (ofList as)

/-- macro_num_args. -/
def lengthEL : ExprList → Nat
  | .nil => 0
  | .cons _ as => as.lengthEL + 1

end ExprList

namespace Expr

/-- is_local. -/
def isLocal : Expr → Bool
  | .localE _ _ _ => true
  | _ => false

/-- is_metavar. -/
def isMetavar : Expr → Bool
  | .meta _ _ => true
  | _ => false

/-- is_var. -/
def isVar : Expr → Bool
  | .var _ => true
  | _ => false

/-- is_app. -/
def isApp : Expr → Bool
  | .app _ _ => true
  | _ => false

/-- is_binding: lambda or pi. -/
def isBinding : Expr → Bool
  | .lam _ _ _ _ => true
  | .pi _ _ _ _ => true
  | _ => false

/-- is_pi. -/
def isPi : Expr → Bool
  | .pi _ _ _ _ => true
  | _ => false

/-- is_sort. -/
def isSort : Expr → Bool
  | .sort _ => true
  | _ => false

/-- is_constant. -/
def isConstant : Expr → Bool
  | .const _ _ => true
  | _ => false

/-- is_macro. -/
def isMac : Expr → Bool
  | .mac _ _ => true
  | _ => false

/-- mlocal_name / the name of a metavariable or local constant. -/
def mlocalName : Expr → Name
  | .localE n _ _ => n
  | .meta n _ => n
  | _ => 0

/-- mlocal_type. -/
def mlocalType : Expr → Expr
  | .localE _ _ ty => ty
  | .meta _ ty => ty
  | e => e

/-- local_pp_name. -/
def localPpName : Expr → Name
  | .localE _ ppn _ => ppn
  | e => e.mlocalName

/-- get_app_fn: the head of an application spine. -/
def getAppFn : Expr → Expr
  | .app f _ => getAppFn f
  | e => e

/-- is_meta for expressions: the application head is a metavariable. -/
def isMeta (e : Expr) : Bool := e.getAppFn.isMetavar

/-- Helper for get_app_args. -/
def getAppArgsAux : Expr → List Expr → Expr × List Expr
  | .app f a, acc => getAppArgsAux f (a :: acc)
  | e, acc => (e, acc)

/-- get_app_args: head and argument list of an application spine. -/
def getAppArgs (e : Expr) : Expr × List Expr := getAppArgsAux e []

/-- mk_app(f, args): left-nested application of an argument list. -/
def mkAppList (f : Expr) (args : List Expr) : Expr :=
  args.foldl (fun acc a => .app acc a) f

end Expr

mutual
/-- has_metavar: the expression contains a metavariable (the cached bit of
spec section 3; types of locals and metavariables are part of the term
DAG and are included). -/
def hasMetavar : Expr → Bool
  | .var _ => false
  | .localE _ _ ty => hasMetavar ty
  | .meta _ _ => true
  | .const _ _ => false
  | .sort _ => false
  | .lam _ dom body _ => hasMetavar dom || hasMetavar body
  | .pi _ dom body _ => hasMetavar dom || hasMetavar body
  | .app f a => hasMetavar f || hasMetavar a
  | .mac _ args => hasMetavarL args

/-- has_metavar on macro argument lists. -/
def hasMetavarL : ExprList → Bool
  | .nil => false
  | .cons a as => hasMetavar a || hasMetavarL as
end

mutual
/-- has_local: the expression contains a local constant. -/
def hasLocal : Expr → Bool
  | .var _ => false
  | .localE _ _ _ => true
  | .meta _ ty => hasLocal ty
  | .const _ _ => false
  | .sort _ => false
  | .lam _ dom body _ => hasLocal dom || hasLocal body
  | .pi _ dom body _ => hasLocal dom || hasLocal body
  | .app f a => hasLocal f || hasLocal a
  | .mac _ args => hasLocalL args

/-- has_local on macro argument lists. -/
def hasLocalL : ExprList → Bool
  | .nil => false
  | .cons a as => hasLocal a || hasLocalL as
end

/-- is_simple_meta (unifier.cpp lines 36-45): if e is ?m or
(?m l_1 ... l_n) with the l_i pairwise-distinct local constants, return
?m together with the argument list; otherwise none. -/
def isSimpleMeta (e : Expr) : Option (Expr × List Expr) :=
  let (m, args) := e.getAppArgs
  if m.isMetavar then
    if argsOk args [] then some (m, args) else none
  else none
where
  /-- Each argument must be a local constant distinct from the earlier
  ones (std::find over the already-seen range). -/
  argsOk : List Expr → List Expr → Bool
    | [], _ => true
    | a :: rest, seen =>
      if a.isLocal && !(seen.contains a) then argsOk rest (seen ++ [a]) else false

mutual
/-- occurs_context_check (unifier.cpp lines 49-70): true iff e does not
contain the metavariable m and every local constant occurring in e is in
locals.  The for_each pruning on has_metavar/has_local cannot hide a
violating subterm, so the translation is a full traversal (types of
locals and metavariables included, as in the kernel's for_each). -/
def occursContextCheck (e : Expr) (m : Expr) (locals : List Expr) : Bool :=
  match e with
  | .var _ => true
  | .localE n ppn ty =>
    locals.contains (Expr.localE n ppn ty) && occursContextCheck ty m locals
  | .meta n ty =>
    !(Expr.meta n ty == m) && occursContextCheck ty m locals
  | .const _ _ => true
  | .sort _ => true
  | .lam _ dom body _ =>
    occursContextCheck dom m locals && occursContextCheck body m locals
  | .pi _ dom body _ =>
    occursContextCheck dom m locals && occursContextCheck body m locals
  | .app f a =>
    occursContextCheck f m locals && occursContextCheck a m locals
  | .mac _ args => occursContextCheckL args m locals

/-- occurs_context_check on macro argument lists. -/
def occursContextCheckL (args : ExprList) (m : Expr) (locals : List Expr) : Bool :=
  match args with
  | .nil => true
  | .cons a as => occursContextCheck a m locals && occursContextCheckL as m locals
end

mutual
/-- abstract_locals: replace each occurrence of locals[i] by the de Bruijn
variable (d + n - 1 - i) at binder depth d (kernel helper, modelled from
the spec's substitution-of-bound-variables interface). -/
def abstractAux (locals : List Expr) (d : Nat) : Expr → Expr
  | .var i => .var i
  | .localE n ppn ty =>
    match locals.indexOf? (Expr.localE n ppn ty) with
    | some i => .var (d + locals.length - 1 - i)
    | none => .localE n ppn (abstractAux locals d ty)
  | .meta n ty => .meta n (abstractAux locals d ty)
  | .const n ls => .const n ls
  | .sort l => .sort l
  | .lam n dom body bi => .lam n (abstractAux locals d dom) (abstractAux locals (d + 1) body) bi
  | .pi n dom body bi => .pi n (abstractAux locals d dom) (abstractAux locals (d + 1) body) bi
  | .app f a => .app (abstractAux locals d f) (abstractAux locals d a)
  | .mac dn args => .mac dn (abstractAuxL locals d args)

/-- abstract_locals on macro argument lists. -/
def abstractAuxL (locals : List Expr) (d : Nat) : ExprList → ExprList
  | .nil => .nil
  | .cons a as => .cons (abstractAux locals d a) (abstractAuxL locals d as)
end

/-- Wrap v in lambda binders whose pretty names and domains come from the
locals (the while loop of unifier.cpp lines 75-80; mk_lambda uses the
default binder annotation 0). -/
def wrapLams (locals : List Expr) (v : Expr) : Expr :=
  match locals with
  | [] => v
  | l :: rest => .lam l.localPpName l.mlocalType (wrapLams rest v) 0

/-- lambda_abstract_locals (unifier.cpp lines 72-81): abstract the locals
in e and wrap the result in lambda binders, locals[0] outermost. -/
def lambdaAbstractLocals (e : Expr) (locals : List Expr) : Expr :=
  wrapLams locals (abstractAux locals 0 e)

/-- The persistent substitution, spec section 3: metavariable name to
(value, justification), separately for term and universe metavariables.
Modelled from the spec (the substitution class is an external
collaborator). -/
structure Substitution where
  exprs : List (Name × Expr × Justification)
  lvls : List (Name × Level × Justification)
deriving DecidableEq, Repr

namespace Substitution

/-- The empty substitution (the C++ substitution()). -/
def empty : Substitution := ⟨[], []⟩

/-- assign for term metavariables (keyed by name). -/
def assignE (s : Substitution) (n : Name) (v : Expr) (j : Justification) : Substitution :=
  { s with exprs := (n, v, j) :: s.exprs }

/-- assign for universe metavariables. -/
def assignL (s : Substitution) (n : Name) (v : Level) (j : Justification) : Substitution :=
  { s with lvls := (n, v, j) :: s.lvls }

/-- Lookup of a term metavariable. -/
def lookupE (s : Substitution) (n : Name) : Option (Expr × Justification) :=
  (s.exprs.find? (fun p => p.1 == n)).map (fun p => p.2)

/-- Lookup of a universe metavariable. -/
def lookupL (s : Substitution) (n : Name) : Option (Level × Justification) :=
  (s.lvls.find? (fun p => p.1 == n)).map (fun p => p.2)

/-- is_assigned for term metavariables. -/
def isAssignedE (s : Substitution) (n : Name) : Bool := (s.lookupE n).isSome

end Substitution

/-- unify_status (library/unifier.h): Solved, Failed, Unsupported. -/
inductive UnifyStatus where
  | Solved : UnifyStatus
  | Failed : UnifyStatus
  | Unsupported : UnifyStatus
deriving DecidableEq, Repr

open UnifyStatus

/-- unify_simple_core for expressions (unifier.cpp lines 83-96): lhs is
metavariable-headed; if it is not a simple metavariable pattern, or rhs is
headed by the same metavariable, Unsupported; if the occurs/context check
on rhs fails, Failed; otherwise Solved with ?m assigned the lambda
abstraction of rhs over the pattern's locals. -/
def unifySimpleCore (s : Substitution) (lhs rhs : Expr) (j : Justification) :
    UnifyStatus × Substitution :=
  match isSimpleMeta lhs with
  | none => (Unsupported, s)
  | some (m, args) =>
    if rhs.isMeta && (rhs.getAppFn == m) then (Unsupported, s)
    else if !occursContextCheck rhs m args then (Failed, s)
    else (Solved, s.assignE m.mlocalName (lambdaAbstractLocals rhs args) j)

/-- unify_simple for expressions (unifier.cpp lines 98-109). -/
def unifySimple (s : Substitution) (lhs rhs : Expr) (j : Justification) :
    UnifyStatus × Substitution :=
  if lhs = rhs then (Solved, s)
  else if !hasMetavar lhs && !hasMetavar rhs then (Failed, s)
  else if lhs.isMeta then unifySimpleCore s lhs rhs j
  else if rhs.isMeta then unifySimpleCore s rhs lhs j
  else (Unsupported, s)

/-- unify_simple_core for levels (unifier.cpp lines 127-137): lhs is a
level metavariable; if it occurs in rhs then Failed when rhs is a
successor and Unsupported otherwise; if it does not occur, Solved with
the assignment. -/
def unifySimpleCoreLvl (s : Substitution) (lhs rhs : Level) (j : Justification) :
    UnifyStatus × Substitution :=
  if occursLvl lhs rhs then
    if rhs.isSucc then (Failed, s) else (Unsupported, s)
  else (Solved, s.assignL lhs.metaId rhs j)

/-- unify_simple for levels (unifier.cpp lines 139-152). -/
def unifySimpleLvl (s : Substitution) (lhs rhs : Level) (j : Justification) :
    UnifyStatus × Substitution :=
  if lhs = rhs then (Solved, s)
  else if !lhs.hasMeta && !rhs.hasMeta then (Failed, s)
  else if lhs.isMeta then unifySimpleCoreLvl s lhs rhs j
  else if rhs.isMeta then unifySimpleCoreLvl s rhs lhs j
  else
    match lhs, rhs with
    | .succ a, .succ b => unifySimpleLvl s a b j
    | _, _ => (Unsupported, s)

/-- Constraints, spec section 3: expression equality, universe equality,
and choice constraints (the generator function is referenced by an
identifier resolved through the oracle environment; its lazy alternative
sequence is modelled as a finite list). -/
inductive Constraint where
  | eq (lhs rhs : Expr) (j : Justification) : Constraint
  | levelEq (lhs rhs : Level) (j : Justification) : Constraint
  | choice (e : Expr) (fnId : Nat) (j : Justification) (delayed : Bool) : Constraint
deriving DecidableEq, Repr

namespace Constraint

/-- c.get_justification(). -/
def just : Constraint → Justification
  | .eq _ _ j => j
  | .levelEq _ _ j => j
  | .choice _ _ j _ => j

/-- update_justification(c, j). -/
def updateJust : Constraint → Justification → Constraint
  | .eq l r _, j => .eq l r j
  | .levelEq l r _, j => .levelEq l r j
  | .choice e f _ d, j => .choice e f j d

/-- is_eq_cnstr. -/
def isEq : Constraint → Bool
  | .eq _ _ _ => true
  | _ => false

/-- is_choice_cnstr. -/
def isChoice : Constraint → Bool
  | .choice _ _ _ _ => true
  | _ => false

end Constraint

/-- unify_simple on a constraint (unifier.cpp lines 154-161). -/
def unifySimpleCnstr (s : Substitution) (c : Constraint) : UnifyStatus × Substitution :=
  match c with
  | .eq lhs rhs j => unifySimple s lhs rhs j
  | .levelEq lhs rhs j => unifySimpleLvl s lhs rhs j
  | .choice _ _ _ _ => (Unsupported, s)

/-- g_first_delayed = 1u << 28 (unifier.cpp line 164). -/
def gFirstDelayed : Nat := 2 ^ 28

/-- g_first_very_delayed = 1u << 30 (unifier.cpp line 165). -/
def gFirstVeryDelayed : Nat := 2 ^ 30

/-- A choice-function alternative (a_choice): value, justification, extra
constraints. -/
abbrev AChoice := Expr × Justification × List Constraint

/-- The constraint queue: (constraint, insertion id) ordered by id
ascending, as the rb_tree of cnstr_cmp; modelled as a sorted association
list with insertion replacing an equal id. -/
def insertCnstrQ : List (Constraint × Nat) → Constraint × Nat → List (Constraint × Nat)
  | [], p => [p]
  | hd :: tl, p =>
    if p.2 < hd.2 then p :: hd :: tl
    else if p.2 = hd.2 then p :: tl
    else hd :: insertCnstrQ tl p

/-- Find the queue entry with the given insertion id (m_cnstrs.find on the
dont-care pair). -/
def findCnstrQ (q : List (Constraint × Nat)) (cidx : Nat) : Option Constraint :=
  (q.find? (fun p => p.2 == cidx)).map (fun p => p.1)

/-- Remove the queue entry with the given insertion id. -/
def eraseCnstrQ (q : List (Constraint × Nat)) (cidx : Nat) : List (Constraint × Nat) :=
  match q with
  | [] => []
  | hd :: tl => if hd.2 = cidx then tl else hd :: eraseCnstrQ tl cidx

/-- Sorted insertion into a cnstr_idx_set (rb_tree of unsigned). -/
def insertIdx : List Nat → Nat → List Nat
  | [], i => [i]
  | hd :: tl, i =>
    if i < hd then i :: hd :: tl
    else if i = hd then hd :: tl
    else hd :: insertIdx tl i

/-- The occurrence indices m_mvar_occs / m_mlvl_occs: metavariable name to
set of constraint ids. -/
abbrev OccMap := List (Name × List Nat)

/-- Map lookup. -/
def lookupOccs (m : OccMap) (n : Name) : Option (List Nat) :=
  (m.find? (fun p => p.1 == n)).map (fun p => p.2)

/-- Map erase. -/
def eraseOccs (m : OccMap) (n : Name) : OccMap :=
  m.filter (fun p => !(p.1 == n))

/-- Map insert-or-replace. -/
def insertOccs (m : OccMap) (n : Name) (s : List Nat) : OccMap :=
  (n, s) :: eraseOccs m n

/-- add_occ (unifier.cpp lines 389-400): insert cidx into the set of the
metavariable name. -/
def addOcc (m : OccMap) (n : Name) (cidx : Nat) : OccMap :=
  let s := (lookupOccs m n).getD []
  if !(s.contains cidx) then insertOccs m n (insertIdx s cidx) else m

/-- The three shapes of case splits (spec section 4.9 and unifier.cpp
lines 221-277): shared base data (assumption index, accumulated failed
justifications, snapshots of substitution, queue and indices) plus the
remaining alternatives of each kind. -/
structure SplitBase where
  assumptionIdx : Nat
  failedJ : Justification
  subst : Substitution
  cnstrs : List (Constraint × Nat)
  mvarOccs : OccMap
  mlvlOccs : OccMap
deriving DecidableEq, Repr

/-- plugin_case_split / choice_case_split / ho_case_split. -/
inductive CaseSplit where
  | plugin (base : SplitBase) (tail : List (List Constraint)) : CaseSplit
  | choice (base : SplitBase) (e : Expr) (jst : Justification) (tail : List AChoice) : CaseSplit
  | ho (base : SplitBase) (tail : List (List Constraint)) : CaseSplit
deriving DecidableEq, Repr

/-- The base data of a case split. -/
def CaseSplit.base : CaseSplit → SplitBase
  | .plugin b _ => b
  | .choice b _ _ _ => b
  | .ho b _ => b

/-- The mutable engine state of unifier_fn (unifier.cpp lines 180-290):
name generator, substitution, step counter, first-solution flag,
assumption and constraint counters, queue, occurrence indices, case-split
stack (head = top) and the optional conflict. -/
structure UState where
  ngen : NameGen
  subst : Substitution
  numSteps : Nat
  first : Bool
  nextAssumptionIdx : Nat
  nextCidx : Nat
  cnstrs : List (Constraint × Nat)
  mvarOccs : OccMap
  mlvlOccs : OccMap
  caseSplits : List CaseSplit
  conflict : Option Justification
deriving DecidableEq, Repr

namespace UState

/-- in_conflict(). -/
def inConflict (st : UState) : Bool := st.conflict.isSome

/-- set_conflict(j) / update_conflict(j). -/
def setConflict (st : UState) (j : Justification) : UState := { st with conflict := some j }

/-- reset_conflict(). -/
def resetConflict (st : UState) : UState := { st with conflict := none }

/-- The justification held by m_conflict (the source dereferences it under
the assertion that a conflict is present). -/
def conflictJ (st : UState) : Justification := st.conflict.getD .noneJ

/-- add_occs (unifier.cpp lines 413-424): register cidx for every name in
the optional level and term occurrence sets. -/
def addOccs (st : UState) (cidx : Nat) (mlvlOccs mvarOccs : Option (List Name)) : UState :=
  let st := match mlvlOccs with
    | some ns => { st with mlvlOccs := ns.foldl (fun m n => addOcc m n cidx) st.mlvlOccs }
    | none => st
  match mvarOccs with
  | some ns => { st with mvarOccs := ns.foldl (fun m n => addOcc m n cidx) st.mvarOccs }
  | none => st

/-- add_cnstr (unifier.cpp lines 427-432): the constraint receives
insertion id m_next_cidx + start_cidx, the occurrence indices are updated,
and m_next_cidx is incremented. -/
def addCnstr (st : UState) (c : Constraint) (mlvlOccs mvarOccs : Option (List Name))
    (startCidx : Nat) : UState :=
  let cidx := st.nextCidx + startCidx
  let st := { st with cnstrs := insertCnstrQ st.cnstrs (c, cidx) }
  let st := st.addOccs cidx mlvlOccs mvarOccs
  { st with nextCidx := st.nextCidx + 1 }

/-- add_delayed_cnstr. -/
def addDelayedCnstr (st : UState) (c : Constraint) (ml mv : Option (List Name)) : UState :=
  st.addCnstr c ml mv gFirstDelayed

/-- add_very_delayed_cnstr. -/
def addVeryDelayedCnstr (st : UState) (c : Constraint) (ml mv : Option (List Name)) : UState :=
  st.addCnstr c ml mv gFirstVeryDelayed

end UState

/-- check_system's step accounting (unifier.cpp lines 296-303): raise the
step-limit exception (none) when the counter already exceeds max_steps,
otherwise increment it. -/
def checkSystemCore (numSteps maxSteps : Nat) : Option Nat :=
  if numSteps > maxSteps then none else some (numSteps + 1)

/-- Level instantiation under the substitution: assigned level
metavariables are replaced by their values, justifications of applied
assignments are composed, and the names of remaining metavariables are
collected (modelled from the spec's instantiate operation). -/
def instLvl (s : Substitution) : Level → Level × Justification × List Name
  | .zero => (.zero, .noneJ, [])
  | .succ l =>
    let (l', j, u) := instLvl s l
    (.succ l', j, u)
  | .maxL a b =>
    let (a', ja, ua) := instLvl s a
    let (b', jb, ub) := instLvl s b
    (.maxL a' b', ja.comp1 jb, ua ++ ub)
  | .imaxL a b =>
    let (a', ja, ua) := instLvl s a
    let (b', jb, ub) := instLvl s b
    (.imaxL a' b', ja.comp1 jb, ua ++ ub)
  | .param n => (.param n, .noneJ, [])
  | .meta n =>
    match s.lookupL n with
    | some (v, j) => (v, j, [])
    | none => (.meta n, .noneJ, [n])

/-- Fold level instantiation over a list of levels. -/
def instLvlList (s : Substitution) : List Level → List Level × Justification × List Name
  | [] => ([], .noneJ, [])
  | l :: ls =>
    let (l', j, u) := instLvl s l
    let (ls', js, us) := instLvlList s ls
    (l' :: ls', j.comp1 js, u ++ us)

mutual
/-- Expression instantiation under the substitution (the spec's
instantiate operation, modelled from the spec: every assigned
metavariable is replaced by its value, the justifications of the applied
assignments are composed, and the remaining level and term metavariable
names are collected). -/
def instExpr (s : Substitution) : Expr → Expr × Justification × List Name × List Name
  | .var i => (.var i, .noneJ, [], [])
  | .localE n ppn ty =>
    let (ty', j, ul, ue) := instExpr s ty
    (.localE n ppn ty', j, ul, ue)
  | .meta n ty =>
    match s.lookupE n with
    | some (v, j) => (v, j, [], [])
    | none => (.meta n ty, .noneJ, [], [n])
  | .const n ls =>
    let (ls', j, ul) := instLvlList s ls
    (.const n ls', j, ul, [])
  | .sort l =>
    let (l', j, ul) := instLvl s l
    (.sort l', j, ul, [])
  | .lam n dom body bi =>
    let (dom', jd, uld, ued) := instExpr s dom
    let (body', jb, ulb, ueb) := instExpr s body
    (.lam n dom' body' bi, jd.comp1 jb, uld ++ ulb, ued ++ ueb)
  | .pi n dom body bi =>
    let (dom', jd, uld, ued) := instExpr s dom
    let (body', jb, ulb, ueb) := instExpr s body
    (.pi n dom' body' bi, jd.comp1 jb, uld ++ ulb, ued ++ ueb)
  | .app f a =>
    let (f', jf, ulf, uef) := instExpr s f
    let (a', ja, ula, uea) := instExpr s a
    (.app f' a', jf.comp1 ja, ulf ++ ula, uef ++ uea)
  | .mac d args =>
    let (args', j, ul, ue) := instExprL s args
    (.mac d args', j, ul, ue)

/-- Expression instantiation on macro argument lists. -/
def instExprL (s : Substitution) : ExprList → ExprList × Justification × List Name × List Name
  | .nil => (.nil, .noneJ, [], [])
  | .cons a as =>
    let (a', ja, ula, uea) := instExpr s a
    let (as', js, uls, ues) := instExprL s as
    (.cons a' as', ja.comp1 js, ula ++ uls, uea ++ ues)
end

/-- replace_range (unifier.cpp lines 311-316): replace the final range of
a Pi telescope, keeping every binder. -/
def replaceRange : Expr → Expr → Expr
  | .pi n dom body bi, newRange => .pi n dom (replaceRange body newRange) bi
  | _, newRange => newRange

/-- get_arity (unifier.cpp lines 319-326): number of nested Pi binders. -/
def getArity : Expr → Nat
  | .pi _ _ body _ => getArity body + 1
  | _ => 0

/-- mk_app_vars (unifier.cpp lines 329-337): f (#n-1) ... (#0). -/
def mkAppVars (f : Expr) (n : Nat) : Expr :=
  Expr.mkAppList f ((List.range n).reverse.map Expr.var)

/-- mk_aux_type_metavar_for (unifier.cpp lines 346-350): a fresh
metavariable whose type ends in Sort of a fresh universe metavariable. -/
def mkAuxTypeMetavarFor (g : NameGen) (t : Expr) : Expr × NameGen :=
  let (u, g) := g.next
  let newType := replaceRange t (.sort (.meta u))
  let (n, g) := g.next
  (.meta n newType, g)

/-- mk_aux_metavar_for (unifier.cpp lines 361-367). -/
def mkAuxMetavarFor (g : NameGen) (t : Expr) : Expr × NameGen :=
  let num := getArity t
  let (mt, g) := mkAuxTypeMetavarFor g t
  let r := mkAppVars mt num
  let newType := replaceRange t r
  let (n, g) := g.next
  (.meta n newType, g)

/-- mk_lambda_for (unifier.cpp lines 375-381): wrap v in lambda binders
taken from the Pi spine of t, preserving names, domains and binder
annotations. -/
def mkLambdaFor : Expr → Expr → Expr
  | .pi n dom body bi, v => .lam n dom (mkLambdaFor body v) bi
  | _, v => v

/-- update_binding: same binder kind, name and annotation, new domain and
body. -/
def updateBinding : Expr → Expr → Expr → Expr
  | .lam n _ _ bi, dom, body => .lam n dom body bi
  | .pi n _ _ bi, dom, body => .pi n dom body bi
  | e, _, _ => e

mutual
/-- instantiate(body, v) for the binder-imitation case: substitute de
Bruijn variable d by v and lower the variables above it (kernel helper,
modelled from the spec's substitution-of-bound-variables interface; the
engine only uses it with a closed local constant as v). -/
def instVar (d : Nat) (v : Expr) : Expr → Expr
  | .var i => if i = d then v else if i > d then .var (i - 1) else .var i
  | .localE n ppn ty => .localE n ppn (instVar d v ty)
  | .meta n ty => .meta n (instVar d v ty)
  | .const n ls => .const n ls
  | .sort l => .sort l
  | .lam n dom body bi => .lam n (instVar d v dom) (instVar (d + 1) v body) bi
  | .pi n dom body bi => .pi n (instVar d v dom) (instVar (d + 1) v body) bi
  | .app f a => .app (instVar d v f) (instVar d v a)
  | .mac dn args => .mac dn (instVarL d v args)

/-- instantiate on macro argument lists. -/
def instVarL (d : Nat) (v : Expr) : ExprList → ExprList
  | .nil => .nil
  | .cons a as => .cons (instVar d v a) (instVarL d v as)
end

/-- The projection loop of process_flex_rigid (unifier.cpp lines 826-839),
scanning the pattern arguments with vidx starting at margs.size() - 1 and
decrementing: a non-local argument paired with a non-local rhs yields the
two-constraint alternative, a local argument equal to rhs yields the
single-constraint alternative, any other position yields nothing. -/
def projAlts : List Expr → Nat → Expr → Expr → Expr → Justification → List (List Constraint)
  | [], _, _, _, _, _ => []
  | marg :: rest, vidx, rhs, m, mtype, j =>
    (if !marg.isLocal && !rhs.isLocal then
      [[Constraint.eq marg rhs j, Constraint.eq m (mkLambdaFor mtype (.var vidx)) j]]
    else if marg.isLocal && marg = rhs then
      [[Constraint.eq m (mkLambdaFor mtype (.var vidx)) j]]
    else []) ++ projAlts rest (vidx - 1) rhs m mtype j

/-- The auxiliary-metavariable fold shared by the application and macro
imitation branches (unifier.cpp lines 847-852 and 877-882): one fresh
auxiliary metavariable and one constraint per argument. -/
def imitationArgs (g : NameGen) (mtype m0 : Expr) (margs rargs : List Expr)
    (j : Justification) : List Constraint × List Expr × NameGen :=
  match rargs with
  | [] => ([], [], g)
  | rarg :: rest =>
    let (maux, g) := mkAuxMetavarFor g mtype
    let c := Constraint.eq (Expr.mkAppList maux margs) rarg j
    let sarg := mkAppVars maux margs.length
    let (cs, sargs, g) := imitationArgs g mtype m0 margs rest j
    (c :: cs, sarg :: sargs, g)

/-- The imitation candidate of process_flex_rigid (unifier.cpp lines
841-888), by case on the head of the rigid side; none when rhs is a local
constant (no imitation).  The var and metavariable cases are unreachable
from the engine (asserted in the source) and also yield none. -/
def imitationAlt (g : NameGen) (m mtype : Expr) (margs : List Expr) (rhs : Expr)
    (j : Justification) : Option (List Constraint) × NameGen :=
  match rhs with
  | .app f0 a0 =>
    let (f, rargs) := (Expr.app f0 a0).getAppArgs
    let (cs, sargs, g) := imitationArgs g mtype m margs rargs j
    let v := mkLambdaFor mtype (Expr.mkAppList f sargs)
    (some (cs ++ [Constraint.eq m v j]), g)
  | .lam bn dom body bi =>
    let (maux1, g) := mkAuxMetavarFor g mtype
    let c1 := Constraint.eq (Expr.mkAppList maux1 margs) dom j
    let piE := Expr.pi bn dom body 0
    let mtype2 := replaceRange mtype piE
    let (maux2, g) := mkAuxMetavarFor g mtype2
    let (ln, g) := g.next
    let newLocal := Expr.localE ln bn dom
    let c2 := Constraint.eq (.app (Expr.mkAppList maux2 margs) newLocal)
      (instVar 0 newLocal body) j
    let v := updateBinding (Expr.lam bn dom body bi) (mkAppVars maux1 margs.length)
      (mkAppVars maux2 (margs.length + 1))
    (some [c1, c2, Constraint.eq m (mkLambdaFor mtype v) j], g)
  | .pi bn dom body bi =>
    let (maux1, g) := mkAuxMetavarFor g mtype
    let c1 := Constraint.eq (Expr.mkAppList maux1 margs) dom j
    let piE := Expr.pi bn dom body 0
    let mtype2 := replaceRange mtype piE
    let (maux2, g) := mkAuxMetavarFor g mtype2
    let (ln, g) := g.next
    let newLocal := Expr.localE ln bn dom
    let c2 := Constraint.eq (.app (Expr.mkAppList maux2 margs) newLocal)
      (instVar 0 newLocal body) j
    let v := updateBinding (Expr.pi bn dom body bi) (mkAppVars maux1 margs.length)
      (mkAppVars maux2 (margs.length + 1))
    (some [c1, c2, Constraint.eq m (mkLambdaFor mtype v) j], g)
  | .sort l => (some [Constraint.eq m (mkLambdaFor mtype (.sort l)) j], g)
  | .const n ls => (some [Constraint.eq m (mkLambdaFor mtype (.const n ls)) j], g)
  | .localE _ _ _ => (none, g)
  | .mac dn args =>
    let (cs, sargs, g) := imitationArgs g mtype m margs args.toList j
    let v := mkLambdaFor mtype (.mac dn (ExprList.ofList sargs))
    (some (cs ++ [Constraint.eq m v j]), g)
  | .var _ => (none, g)
  | .meta _ _ => (none, g)

/-- The alternative generation of process_flex_rigid (unifier.cpp lines
817-888): projections in argument order followed by the imitation
candidate when one exists. -/
def flexRigidAlts (g : NameGen) (lhs rhs : Expr) (j : Justification) :
    List (List Constraint) × NameGen :=
  let (m, margs) := lhs.getAppArgs
  let mtype := m.mlocalType
  let projs := projAlts margs (margs.length - 1) rhs m mtype j
  let (imit, g) := imitationAlt g m mtype margs rhs j
  match imit with
  | some cs => (projs ++ [cs], g)
  | none => (projs, g)

/-- The oracle environment: engine configuration (use_exception and
max_steps are construction-time constants of unifier_fn) together with
the external collaborators declared out of scope by the spec -- the
unifier plugin, the choice-constraint generators, and the kernel type
checker whose infer and is_def_eq may emit constraints through the
engine's callback (modelled as result plus emitted-constraint list). -/
structure UEnv where
  useException : Bool
  maxSteps : Nat
  plugin : Constraint → NameGen → List (List Constraint)
  choiceFns : Nat → Expr → Substitution → NameGen → List AChoice
  infer : Expr → Expr × List Constraint
  whnf : Expr → Expr
  isDefEq : Expr → Expr → Justification → Bool × List Constraint
  normalizeLvl : Level → Level

/-- check_system on the engine state (unifier.cpp lines 296-303). -/
def checkSystem (env : UEnv) (st : UState) : Option UState :=
  (checkSystemCore st.numSteps env.maxSteps).map (fun n => { st with numSteps := n })

/-- The status enum of process_metavar_eq (unifier.cpp line 495). -/
inductive MStatus where
  | assigned : MStatus
  | failed : MStatus
  | cont : MStatus
deriving DecidableEq, Repr

/-- Results of the engine's internal calls: boolean results of the
process_* methods, the ternary status of process_metavar_eq, the outcome
of the solving loop, the step-limit exception, and fuel exhaustion of the
shallow embedding. -/
inductive Out where
  | res (ok : Bool) (st : UState) : Out
  | mres (s : MStatus) (st : UState) : Out
  | loopRes (ok : Bool) (st : UState) : Out
  | stepLimitEx : Out
  | noFuel : Out
deriving DecidableEq, Repr

/-- The engine's mutually recursive methods, reified so that the whole
engine is one structurally fuelled interpreter. -/
inductive Call where
  | processConstraint (c : Constraint) : Call
  | processList (cs : List Constraint) : Call
  | processEq (c : Constraint) : Call
  | processLevelEq (c : Constraint) : Call
  | metavarEqE (lhs rhs : Expr) (j : Justification) : Call
  | metavarEqL (lhs rhs : Level) (j : Justification) : Call
  | assignE (m v : Expr) (j : Justification) : Call
  | assignL (m : Level) (v : Level) (j : Justification) : Call
  | wake (idxs : List Nat) : Call
  | processCidx (cidx : Nat) : Call
  | processCnstrs (cs : List Constraint) (j : Justification) : Call
  | flexRigidC (c : Constraint) : Call
  | flexRigid (lhs rhs : Expr) (j : Justification) : Call
  | choiceC (c : Constraint) : Call
  | pluginC (c : Constraint) : Call
  | choiceResult (m : Expr) (r : AChoice) (j : Justification) : Call
  | splitNext (d : CaseSplit) : Call
  | resolveConflict : Call
  | processNext : Call
  | solveLoop : Call
  | initCnstrs (cs : List Constraint) : Call

/-- The case_split constructor's snapshot of the current state (unifier.cpp
lines 231-236); the constructor then bumps m_next_assumption_idx. -/
def mkSplitBase (st : UState) : SplitBase :=
  { assumptionIdx := st.nextAssumptionIdx, failedJ := .noneJ, subst := st.subst,
    cnstrs := st.cnstrs, mvarOccs := st.mvarOccs, mlvlOccs := st.mlvlOccs }

/-- Push a new case split (the constructor plus add_case_split). -/
def pushSplit (st : UState) (mk : SplitBase → CaseSplit) : UState :=
  { st with caseSplits := mk (mkSplitBase st) :: st.caseSplits,
            nextAssumptionIdx := st.nextAssumptionIdx + 1 }

/-- restore_state (unifier.cpp lines 239-251): restore the snapshot,
give the split a fresh assumption index, fold the conflict into its
failed justifications, bump the counter and clear the conflict. -/
def restoreBase (st : UState) (b : SplitBase) : UState × SplitBase :=
  let cj := st.conflictJ
  let st := { st with subst := b.subst, cnstrs := b.cnstrs, mvarOccs := b.mvarOccs, mlvlOccs := b.mlvlOccs }
  let b := { b with assumptionIdx := st.nextAssumptionIdx, failedJ := b.failedJ.comp1 cj }
  ({ st with nextAssumptionIdx := st.nextAssumptionIdx + 1, conflict := none }, b)

/-- Replace the top case split (the in-place mutation of the split held by
reference in resolve_conflict). -/
def replaceTop (st : UState) (d : CaseSplit) : UState :=
  { st with caseSplits := d :: st.caseSplits.tail }

/-- Update a case split's failed justifications (line 692). -/
def withFailedJ (d : CaseSplit) (j : Justification) : CaseSplit :=
  match d with
  | .plugin b t => .plugin { b with failedJ := j } t
  | .choice b e jst t => .choice { b with failedJ := j } e jst t
  | .ho b t => .ho { b with failedJ := j } t

/-- is_flex_rigid (unifier.cpp lines 803-809). -/
def isFlexRigid (c : Constraint) : Bool :=
  match c with
  | .eq l r _ => l.isMeta != r.isMeta
  | _ => false

/-- is_flex_flex (unifier.cpp lines 812-814). -/
def isFlexFlex (c : Constraint) : Bool :=
  match c with
  | .eq l r _ => l.isMeta && r.isMeta
  | _ => false

/-- Strip matching outer successors (the while loop of unifier.cpp lines
613-616). -/
def stripSuccs : Level → Level → Level × Level
  | .succ a, .succ b => stripSuccs a b
  | a, b => (a, b)

/-- The interpreter of the engine's mutually recursive methods, one fuel
unit per internal call.  Each arm is the line-by-line translation of the
corresponding unifier_fn method; the type checker's push/pop savepoints
have no observable effect on the pure oracles and are dropped. -/
def run (env : UEnv) : Nat → Call → UState → Out
  | 0, _, _ => .noFuel
  | fuel + 1, call, st =>
    match call with
    | .processConstraint c =>
      -- unifier.cpp lines 647-665
      if st.inConflict then .res false st
      else
        match checkSystem env st with
        | none => .stepLimitEx
        | some st =>
          match c with
          | .choice _ _ _ delayed =>
            if delayed then .res true (st.addVeryDelayedCnstr c none none)
            else .res true (st.addCnstr c none none 0)
          | .eq _ _ _ => run env fuel (.processEq c) st
          | .levelEq _ _ _ => run env fuel (.processLevelEq c) st
    | .processList cs =>
      -- the type checker's constraint callback: process each emitted
      -- constraint, discarding the boolean results
      match cs with
      | [] => .res true st
      | c :: rest =>
        match run env fuel (.processConstraint c) st with
        | .res _ st => run env fuel (.processList rest) st
        | o => o
    | .processEq c =>
      -- process_eq_constraint, unifier.cpp lines 522-573
      match c with
      | .eq lhs0 rhs0 j0 =>
        let (lhs1, jl, ul1, ue1) := instExpr st.subst lhs0
        let (rhs1, jr, ul2, ue2) := instExpr st.subst rhs0
        let uls := ul1 ++ ul2
        let ues := ue1 ++ ue2
        if lhs1 = rhs1 then .res true st
        else
          let newJst := (j0.comp1 jl).comp1 jr
          if !hasMetavar lhs1 && !hasMetavar rhs1 then .res false (st.setConflict newJst)
          else
            match run env fuel (.metavarEqE lhs1 rhs1 newJst) st with
            | .mres .assigned st => .res true st
            | .mres .failed st => .res false st
            | .mres .cont st =>
              match run env fuel (.metavarEqE rhs1 lhs1 newJst) st with
              | .mres .assigned st => .res true st
              | .mres .failed st => .res false st
              | .mres .cont st =>
                let rhs2 := env.whnf rhs1
                let lhs2 := env.whnf lhs1
                if lhs2 ≠ lhs0 ∨ rhs2 ≠ rhs0 then
                  let (b, emitted) := env.isDefEq lhs2 rhs2 newJst
                  match run env fuel (.processList emitted) st with
                  | .res _ st => if b then .res true st else .res false (st.setConflict newJst)
                  | o => o
                else if lhs2.isMeta && rhs2.isMeta then
                  .res true (st.addVeryDelayedCnstr c (some uls) (some ues))
                else if lhs2.isMeta || rhs2.isMeta then
                  .res true (st.addDelayedCnstr c (some uls) (some ues))
                else .res true (st.addCnstr c (some uls) (some ues) 0)
              | o => o
            | o => o
      | _ => .res true st
    | .processLevelEq c =>
      -- process_level_eq_constraint, unifier.cpp lines 600-640
      match c with
      | .levelEq l0 r0 j0 =>
        let (l1, jl, ul1) := instLvl st.subst l0
        let (r1, jr, ul2) := instLvl st.subst r0
        let uls := ul1 ++ ul2
        let (l3, r3) := stripSuccs (env.normalizeLvl l1) (env.normalizeLvl r1)
        if l3 = r3 then .res true st
        else
          let newJst := (j0.comp1 jl).comp1 jr
          if !l3.hasMeta && !r3.hasMeta then .res false (st.setConflict newJst)
          else
            match run env fuel (.metavarEqL l3 r3 newJst) st with
            | .mres .assigned st => .res true st
            | .mres .failed st => .res false st
            | .mres .cont st =>
              match run env fuel (.metavarEqL r3 l3 newJst) st with
              | .mres .assigned st => .res true st
              | .mres .failed st => .res false st
              | .mres .cont st =>
                if l3 ≠ l0 ∨ r3 ≠ r0 then
                  .res true (st.addDelayedCnstr (.levelEq l3 r3 newJst) (some uls) none)
                else .res true (st.addDelayedCnstr c (some uls) none)
              | o => o
            | o => o
      | _ => .res true st
    | .metavarEqE lhs rhs j =>
      -- process_metavar_eq for expressions, unifier.cpp lines 502-519
      if !lhs.isMeta then .mres .cont st
      else
        match isSimpleMeta lhs with
        | none => .mres .cont st
        | some (m, locals) =>
          if rhs.isMeta && (rhs.getAppFn == m) then .mres .cont st
          else if !occursContextCheck rhs m locals then .mres .failed (st.setConflict j)
          else
            match run env fuel (.assignE m (lambdaAbstractLocals rhs locals) j) st with
            | .res true st => .mres .assigned st
            | .res false st => .mres .failed st
            | o => o
    | .metavarEqL lhs rhs j =>
      -- process_metavar_eq for levels, unifier.cpp lines 581-597
      match lhs with
      | .meta _ =>
        if occursLvl lhs rhs then
          if rhs.isSucc then .mres .failed st else .mres .cont st
        else
          match run env fuel (.assignL lhs rhs j) st with
          | .res true st => .mres .assigned st
          | .res false st => .mres .failed st
          | o => o
      | _ => .mres .cont st
    | .assignE m v j =>
      -- assign for expressions, unifier.cpp lines 455-473
      match m with
      | .meta mname mtype =>
        let st := { st with subst := st.subst.assignE mname v j }
        let (vType, emitted1) := env.infer v
        match run env fuel (.processList emitted1) st with
        | .res _ st =>
          if st.inConflict then .res false st
          else
            let (b, emitted2) := env.isDefEq mtype vType j
            match run env fuel (.processList emitted2) st with
            | .res _ st =>
              if !b then .res false st
              else
                match lookupOccs st.mvarOccs mname with
                | some idxs =>
                  let st := { st with mvarOccs := eraseOccs st.mvarOccs mname }
                  match run env fuel (.wake idxs) st with
                  | .res _ st => .res (!st.inConflict) st
                  | o => o
                | none => .res true st
            | o => o
        | o => o
      | _ => .res false st
    | .assignL m v j =>
      -- assign for levels, unifier.cpp lines 479-493
      match m with
      | .meta mname =>
        let st := { st with subst := st.subst.assignL mname v j }
        match lookupOccs st.mlvlOccs mname with
        | some idxs =>
          let st := { st with mlvlOccs := eraseOccs st.mlvlOccs mname }
          match run env fuel (.wake idxs) st with
          | .res _ st => .res (!st.inConflict) st
          | o => o
        | none => .res true st
      | _ => .res false st
    | .wake idxs =>
      -- the for_each over a woken occurrence set (ascending order)
      match idxs with
      | [] => .res true st
      | i :: is =>
        match run env fuel (.processCidx i) st with
        | .res _ st => run env fuel (.wake is) st
        | o => o
    | .processCidx cidx =>
      -- process_constraint_cidx, unifier.cpp lines 671-681
      if st.inConflict then .res false st
      else
        match findCnstrQ st.cnstrs cidx with
        | some c =>
          run env fuel (.processConstraint c) { st with cnstrs := eraseCnstrQ st.cnstrs cidx }
        | none => .res true st
    | .processCnstrs cs j =>
      -- process_constraints, unifier.cpp lines 713-717
      match cs with
      | [] => .res (!st.inConflict) st
      | c :: rest =>
        match run env fuel (.processConstraint (c.updateJust (c.just.comp1 j))) st with
        | .res _ st => run env fuel (.processCnstrs rest j) st
        | o => o
    | .flexRigidC c =>
      -- process_flex_rigid on a constraint, unifier.cpp lines 904-910
      match c with
      | .eq l r j =>
        if l.isMeta then run env fuel (.flexRigid l r j) st
        else run env fuel (.flexRigid r l j) st
      | _ => .res true st
    | .flexRigid lhs rhs j =>
      -- process_flex_rigid, unifier.cpp lines 817-901
      let (alts, g) := flexRigidAlts st.ngen lhs rhs j
      let st := { st with ngen := g }
      match alts with
      | [] => .res false (st.setConflict j)
      | [a] => run env fuel (.processCnstrs a .noneJ) st
      | a :: b :: rest =>
        let aJ := Justification.assumption st.nextAssumptionIdx
        let st := pushSplit st (fun base => .ho base (b :: rest))
        run env fuel (.processCnstrs a aJ) st
    | .choiceC c =>
      -- process_choice_constraint, unifier.cpp lines 741-757
      match c with
      | .choice e fnId j0 _ =>
        let (eType, emitted) := env.infer e
        match run env fuel (.processList emitted) st with
        | .res _ st =>
          let (mType, jType, _, _) := instExpr st.subst eType
          let (child, g) := st.ngen.mkChild
          let st := { st with ngen := g }
          let j := j0.comp1 jType
          match env.choiceFns fnId mType st.subst child with
          | [] => .res false (st.setConflict j)
          | r :: rest =>
            let aJ := Justification.assumption st.nextAssumptionIdx
            let st := pushSplit st (fun base => .choice base e jType rest)
            run env fuel (.choiceResult e r (j.comp1 aJ)) st
        | o => o
      | _ => .res true st
    | .pluginC c =>
      -- process_plugin_constraint, unifier.cpp lines 773-786
      let (child, g) := st.ngen.mkChild
      let st := { st with ngen := g }
      match env.plugin c child with
      | [] => .res false (st.setConflict c.just)
      | r :: rest =>
        let aJ := Justification.assumption st.nextAssumptionIdx
        let st := pushSplit st (fun base => .plugin base rest)
        run env fuel (.processCnstrs r aJ) st
    | .choiceResult m r j =>
      -- process_choice_result, unifier.cpp lines 719-724
      let j := j.comp1 r.2.1
      match run env fuel (.processConstraint (.eq m r.1 j)) st with
      | .res true st => run env fuel (.processCnstrs r.2.2 j) st
      | .res false st => .res false st
      | o => o
    | .splitNext d =>
      -- the next_*_case_split methods, unifier.cpp lines 726-739, 759-771,
      -- 788-800; st.caseSplits holds d on top
      match d with
      | .ho b tail =>
        match tail with
        | [] => .res false (st.setConflict (st.conflictJ.comp1 b.failedJ))
        | c :: tail2 =>
          let (st, b') := restoreBase st b
          let st := replaceTop st (.ho b' tail2)
          run env fuel (.processCnstrs c (.assumption b'.assumptionIdx)) st
      | .plugin b tail =>
        match tail with
        | [] => .res false (st.setConflict (st.conflictJ.comp1 b.failedJ))
        | c :: tail2 =>
          let (st, b') := restoreBase st b
          let st := replaceTop st (.plugin b' tail2)
          run env fuel (.processCnstrs c (.assumption b'.assumptionIdx)) st
      | .choice b e jst tail =>
        match tail with
        | [] => .res false (st.setConflict (st.conflictJ.comp1 b.failedJ))
        | r :: tail2 =>
          let (st, b') := restoreBase st b
          let st := replaceTop st (.choice b' e jst tail2)
          run env fuel (.choiceResult e r (jst.comp1 (.assumption b'.assumptionIdx))) st
    | .resolveConflict =>
      -- resolve_conflict, unifier.cpp lines 687-702
      match st.caseSplits with
      | [] => .res false st
      | d0 :: rest =>
        if (st.conflictJ).dependsOn d0.base.assumptionIdx then
          let d := withFailedJ d0 (d0.base.failedJ.comp1 st.conflictJ)
          let st := { st with caseSplits := d :: rest }
          match run env fuel (.splitNext d) st with
          | .res true st => .res true st.resetConflict
          | .res false st => run env fuel .resolveConflict { st with caseSplits := st.caseSplits.tail }
          | o => o
        else run env fuel .resolveConflict { st with caseSplits := rest }
    | .processNext =>
      -- process_next, unifier.cpp lines 919-931 (the queue is sorted, so
      -- its head is the minimum insertion id)
      match st.cnstrs with
      | [] => .res true st
      | (c, _) :: rest =>
        let st := { st with cnstrs := rest }
        if c.isChoice then run env fuel (.choiceC c) st
        else if isFlexRigid c then run env fuel (.flexRigidC c) st
        else if isFlexFlex c then .res true st
        else run env fuel (.pluginC c) st
    | .solveLoop =>
      -- the while loop of next(), unifier.cpp lines 951-957
      match st.cnstrs with
      | [] => .loopRes true st
      | _ :: _ =>
        match checkSystem env st with
        | none => .stepLimitEx
        | some st =>
          match run env fuel .processNext st with
          | .res true st => run env fuel .solveLoop st
          | .res false st =>
            match run env fuel .resolveConflict st with
            | .res true st => run env fuel .solveLoop st
            | .res false st => .loopRes false st
            | o => o
          | o => o
    | .initCnstrs cs =>
      -- the constructor loop, unifier.cpp lines 291-293 (return values
      -- are discarded)
      match cs with
      | [] => .res true st
      | c :: rest =>
        match run env fuel (.processConstraint c) st with
        | .res _ st => run env fuel (.initCnstrs rest) st
        | o => o

/-- Pulling a solution from the engine (the lazy stream of unify,
unifier.cpp lines 964-972, around unifier_fn::next). -/
inductive NextRes where
  | sol (s : Substitution) (st : UState) : NextRes
  | done : NextRes
  | unifierEx (j : Justification) : NextRes
  | stepLimitEx : NextRes
  | noFuel : NextRes
deriving DecidableEq, Repr

/-- failure() (unifier.cpp lines 704-710): throw unifier_exception with the
conflict when m_use_exception, otherwise end the stream. -/
def failureR (env : UEnv) (st : UState) : NextRes :=
  if env.useException then .unifierEx st.conflictJ else .done

/-- The composite assumption justification built by next() over all open
case splits (unifier.cpp lines 938-940), in stack (vector) order. -/
def allAssumptions (st : UState) : Justification :=
  st.caseSplits.reverse.foldl
    (fun acc cs => acc.comp1 (.assumption cs.base.assumptionIdx)) .noneJ

/-- Run the queue to empty and yield the substitution (the tail of
unifier_fn::next, unifier.cpp lines 951-961). -/
def drain (env : UEnv) (fuel : Nat) (st : UState) : NextRes :=
  match run env fuel .solveLoop st with
  | .loopRes true st => .sol st.subst st
  | .loopRes false st => failureR env st
  | .stepLimitEx => .stepLimitEx
  | _ => .noFuel

/-- unifier_fn::next (unifier.cpp lines 934-961): produce the next
solution. -/
def nextSolution (env : UEnv) (fuel : Nat) (st : UState) : NextRes :=
  if st.inConflict then failureR env st
  else if !st.caseSplits.isEmpty then
    let st := st.setConflict (allAssumptions st)
    match run env fuel .resolveConflict st with
    | .res true st => drain env fuel st
    | .res false st => failureR env st
    | .stepLimitEx => .stepLimitEx
    | _ => .noFuel
  else if st.first then drain env fuel { st with first := false }
  else .done

/-- The engine state built by the unifier_fn constructor before the
initial constraints are processed (unifier.cpp lines 282-294; the
constructor hands a child name generator to the type checker). -/
def mkInitialState (g : NameGen) (s : Substitution) : UState :=
  { ngen := (g.mkChild).2, subst := s, numSteps := 0, first := true,
    nextAssumptionIdx := 0, nextCidx := 0, cnstrs := [], mvarOccs := [],
    mlvlOccs := [], caseSplits := [], conflict := none }

/-- The unifier_fn constructor: initial state plus the processing of the
initial constraints. -/
def startEngine (env : UEnv) (fuel : Nat) (cs : List Constraint) (g : NameGen)
    (s : Substitution) : Out :=
  run env fuel (.initCnstrs cs) (mkInitialState g s)

/-- The three possible results of the convenience entry point
unify(env, lhs, rhs, ngen, plugin, max_steps) (unifier.cpp lines
995-1021): the empty stream, the singleton stream, or a full engine
constructed with the recorded use_exception flag and max_steps. -/
inductive UnifyResult where
  | emptyStream : UnifyResult
  | singleStream (s : Substitution) : UnifyResult
  | engineStream (useExc : Bool) (maxSteps : Nat) (cs : List Constraint)
      (g : NameGen) (s : Substitution) : UnifyResult
deriving DecidableEq, Repr

/-- The callback loop of the convenience entry point (unifier.cpp lines
1001-1013): each constraint emitted by the initial is_def_eq is fed to
unify_simple unless a failure was already recorded; Solved updates the
substitution, Failed sets the flag, Unsupported collects the
constraint. -/
def unifyEntryFold : Substitution → Bool → List Constraint → List Constraint →
    Substitution × Bool × List Constraint
  | s, failed, cs, [] => (s, failed, cs)
  | s, failed, cs, c :: rest =>
    if failed then unifyEntryFold s failed cs rest
    else
      match unifySimpleCnstr s c with
      | (UnifyStatus.Solved, s2) => unifyEntryFold s2 false cs rest
      | (UnifyStatus.Failed, _) => unifyEntryFold s true cs rest
      | (UnifyStatus.Unsupported, _) => unifyEntryFold s false (cs ++ [c]) rest

/-- The convenience entry point unify(env, lhs, rhs, ngen, plugin,
max_steps) (unifier.cpp lines 995-1021): run the initial definitional
equality check, fold unify_simple over the emitted constraints, and
return the empty stream on failure, the singleton stream when nothing
was left unsupported, and otherwise a full engine constructed with
use_exception = false. -/
def unifyExprEntry (env : UEnv) (lhs rhs : Expr) (g : NameGen) (maxSteps : Nat) :
    UnifyResult :=
  let p := env.isDefEq lhs rhs .noneJ
  let q := unifyEntryFold Substitution.empty false [] p.2
  if !p.1 || q.2.1 then .emptyStream
  else if q.2.2.isEmpty then .singleStream q.1
  else .engineStream false maxSteps q.2.2 g q.1

/-! Concrete objects used in counterexamples and witnesses. -/

/-- A closed type used for metavariables and locals in concrete tests. -/
def T0 : Expr := .sort .zero

/-- A concrete oracle environment: empty plugin and choice functions, a
constant inferred type, the identity weak-head normalizer, and a
definitional-equality check that answers false and emits nothing. -/
def denyEnv : UEnv :=
  { useException := false, maxSteps := 100, plugin := fun _ _ => [],
    choiceFns := fun _ _ _ _ => [], infer := fun _ => (.sort .zero, []),
    whnf := fun e => e, isDefEq := fun _ _ _ => (false, []), normalizeLvl := fun l => l }

/-- The engine state of a freshly constructed unifier with no constraints. -/
def stInit : UState := mkInitialState 0 Substitution.empty

/-- The claim's reading of unify_simple: reflexivity gives Solved; no
metavariable on either side gives Failed; otherwise whenever one side is
a simple metavariable pattern whose head does not head the other side,
the occurs/scope check on the other side decides between Failed and
Solved-with-assignment. -/
def claimC1Statement : Prop :=
  ∀ (s : Substitution) (lhs rhs : Expr) (j : Justification),
    (lhs = rhs → unifySimple s lhs rhs j = (Solved, s)) ∧
    (lhs ≠ rhs → hasMetavar lhs = false → hasMetavar rhs = false →
      unifySimple s lhs rhs j = (Failed, s)) ∧
    (∀ m args, lhs ≠ rhs → (hasMetavar lhs = true ∨ hasMetavar rhs = true) →
      isSimpleMeta lhs = some (m, args) → rhs.getAppFn ≠ m →
      unifySimple s lhs rhs j =
        (if occursContextCheck rhs m args then
          (Solved, s.assignE m.mlocalName (lambdaAbstractLocals rhs args) j)
        else (Failed, s))) ∧
    (∀ m args, lhs ≠ rhs → (hasMetavar lhs = true ∨ hasMetavar rhs = true) →
      isSimpleMeta rhs = some (m, args) → lhs.getAppFn ≠ m →
      unifySimple s lhs rhs j =
        (if occursContextCheck lhs m args then
          (Solved, s.assignE m.mlocalName (lambdaAbstractLocals lhs args) j)
        else (Failed, s)))

/-- The number of dispatch iterations a workload that never empties the
queue completes before check_system raises the step-limit exception,
starting from the given counter value (fuelled from outside; enough fuel
makes the count exact). -/
def dispatchIters : Nat → Nat → Nat → Nat
  | 0, _, _ => 0
  | f + 1, numSteps, maxSteps =>
    match checkSystemCore numSteps maxSteps with
    | none => 0
    | some n => dispatchIters f n maxSteps + 1

/-- The claim: a never-terminating workload raises the step-limit
exception after exactly max_steps dispatch iterations. -/
def claimC4Statement : Prop :=
  ∀ (maxSteps f : Nat), maxSteps + 2 ≤ f → dispatchIters f 0 maxSteps = maxSteps

/-- The claim's description of the projection generation: scanning
argument positions i = 1..k in order, a local argument structurally equal
to the rigid side contributes the single-constraint alternative whose
body is de Bruijn variable k - i wrapped in lambda binders from the
metavariable's type; a non-local argument paired with a non-local rigid
side contributes the two-constraint alternative; every other position
contributes nothing. -/
def claimProjAlts (margs : List Expr) (rhs m mtype : Expr) (j : Justification) :
    List (List Constraint) :=
  (List.enum margs).filterMap (fun p =>
    if p.2.isLocal = true ∧ p.2 = rhs then
      some [Constraint.eq m (mkLambdaFor mtype (.var (margs.length - (p.1 + 1)))) j]
    else if p.2.isLocal = false ∧ rhs.isLocal = false then
      some [Constraint.eq p.2 rhs j,
            Constraint.eq m (mkLambdaFor mtype (.var (margs.length - (p.1 + 1)))) j]
    else none)

/-- The three insertion bands of add_cnstr, add_delayed_cnstr and
add_very_delayed_cnstr. -/
inductive Band where
  | regular : Band
  | delayed : Band
  | veryDelayed : Band
deriving DecidableEq, Repr

/-- The band base added to m_next_cidx (0, g_first_delayed,
g_first_very_delayed). -/
def bandStart : Band → Nat
  | .regular => 0
  | .delayed => gFirstDelayed
  | .veryDelayed => gFirstVeryDelayed

/-- A placeholder constraint for insertion sequences (the payload is
irrelevant to insertion ids). -/
def dummyCnstr : Constraint := .eq (.var 0) (.var 0) .noneJ

/-- One insertion through the band's add_cnstr entry. -/
def addBandCnstr (st : UState) (b : Band) : UState :=
  match b with
  | .regular => st.addCnstr dummyCnstr none none 0
  | .delayed => st.addDelayedCnstr dummyCnstr none none
  | .veryDelayed => st.addVeryDelayedCnstr dummyCnstr none none

/-- A sequence of insertions. -/
def runInserts (st : UState) : List Band → UState
  | [] => st
  | b :: bs => runInserts (addBandCnstr st b) bs

/-- The insertion id handed to the i-th insertion of the sequence (line
428: cidx = m_next_cidx + start_cidx), starting from a fresh engine. -/
def idOfInsert (bs : List Band) (i : Fin bs.length) : Nat :=
  (runInserts stInit (bs.take i.1)).nextCidx + bandStart (bs.get i)

/-- The claim: regular ids always lie in [0, 2^28), delayed ids in
[2^28, 2^30), very-delayed ids in [2^30, oo), and ids order every delayed
insertion after every regular one and every very-delayed one after every
delayed one. -/
def claimC8Statement : Prop :=
  (∀ (bs : List Band) (i : Fin bs.length),
    (bs.get i = .regular → idOfInsert bs i < gFirstDelayed) ∧
    (bs.get i = .delayed →
      gFirstDelayed ≤ idOfInsert bs i ∧ idOfInsert bs i < gFirstVeryDelayed) ∧
    (bs.get i = .veryDelayed → gFirstVeryDelayed ≤ idOfInsert bs i)) ∧
  (∀ (bs : List Band) (i k : Fin bs.length),
    (bs.get i = .regular → bs.get k = .delayed → idOfInsert bs i < idOfInsert bs k) ∧
    (bs.get i = .delayed → bs.get k = .veryDelayed → idOfInsert bs i < idOfInsert bs k))

/-- The (state-independent) conditions under which process_metavar_eq
returns Continue: the left side is not metavariable-headed, or is not a
simple metavariable pattern, or the right side is headed by the same
metavariable. -/
def metavarEqContinue (lhs rhs : Expr) : Bool :=
  if lhs.isMeta then
    match isSimpleMeta lhs with
    | none => true
    | some (m, _) => rhs.isMeta && (rhs.getAppFn == m)
  else true

/-- The claim as stated: under the hypotheses that put
process_eq_constraint past the early rules (instantiation did not make
the sides equal, a metavariable remains, neither pattern direction
applies, the def-eq oracle emits nothing), when weak-head normalization
changes neither instantiated side the constraint is classified and
enqueued with success and no new conflict, and when it changes a side
the kernel is_def_eq verdict decides between success and conflict. -/
def claimC5Statement : Prop :=
  ∀ (env : UEnv) (f : Nat) (lhs0 rhs0 : Expr) (j0 : Justification) (st : UState)
    (lhs1 rhs1 : Expr) (jl jr : Justification) (ul1 ue1 ul2 ue2 : List Name),
    instExpr st.subst lhs0 = (lhs1, jl, ul1, ue1) →
    instExpr st.subst rhs0 = (rhs1, jr, ul2, ue2) →
    lhs1 ≠ rhs1 →
    (hasMetavar lhs1 = true ∨ hasMetavar rhs1 = true) →
    metavarEqContinue lhs1 rhs1 = true →
    metavarEqContinue rhs1 lhs1 = true →
    (env.isDefEq (env.whnf lhs1) (env.whnf rhs1) ((j0.comp1 jl).comp1 jr)).2 = [] →
    (env.whnf lhs1 = lhs1 → env.whnf rhs1 = rhs1 →
      ∃ st2, run env (f + 2) (.processEq (.eq lhs0 rhs0 j0)) st = .res true st2 ∧
        st2.conflict = st.conflict) ∧
    (env.whnf lhs1 ≠ lhs1 ∨ env.whnf rhs1 ≠ rhs1 →
      run env (f + 2) (.processEq (.eq lhs0 rhs0 j0)) st =
        (if (env.isDefEq (env.whnf lhs1) (env.whnf rhs1) ((j0.comp1 jl).comp1 jr)).1
         then .res true st
         else .res false (st.setConflict ((j0.comp1 jl).comp1 jr))))

/-- The engine state after the divergent assign: the substitution is
extended with the (ill-typed) assignment, everything else untouched. -/
def c3State : UState :=
  { stInit with subst := Substitution.empty.assignE 0 (.const 1 []) (.atomic 7) }

/-- The claim: unify_simple is symmetric in its two term arguments (for
expressions and for levels) up to the Solved/Failed statuses. -/
def claimC9Statement : Prop :=
  (∀ (s : Substitution) (a b : Expr) (j : Justification),
     (unifySimple s a b j).1 = Solved ∨ (unifySimple s a b j).1 = Failed →
     (unifySimple s b a j).1 = (unifySimple s a b j).1) ∧
  (∀ (s : Substitution) (a b : Level) (j : Justification),
     (unifySimpleLvl s a b j).1 = Solved ∨ (unifySimpleLvl s a b j).1 = Failed →
     (unifySimpleLvl s b a j).1 = (unifySimpleLvl s a b j).1)

/-! Claim C1: the case rules of unify_simple for expressions, as worded by
the spec (rules applied in order, with rules 3 and 4 keyed on either side
being a simple metavariable pattern). -/


/-- C1, counterexample: for lhs = (?m c) and rhs = ?n the claim's rule 4
demands Solved with ?n assigned, but unify_simple dispatches on the
metavariable-headed lhs first, finds it is not a simple pattern, and
returns Unsupported without consulting rhs. -/
theorem c1_counterexample : ¬ claimC1Statement := by
  intro h
  have h4 := (h Substitution.empty (.app (.meta 0 T0) (.const 5 [])) (.meta 1 T0)
    (.atomic 1)).2.2.2
  have e := h4 (.meta 1 T0) [] (by decide) (Or.inl (by decide)) (by decide) (by decide)
  rw [show occursContextCheck (.app (.meta 0 T0) (.const 5 [])) (.meta 1 T0) [] = true from
    by decide] at e
  rw [show unifySimple Substitution.empty (.app (.meta 0 T0) (.const 5 [])) (.meta 1 T0)
      (.atomic 1) = (Unsupported, Substitution.empty) from by decide] at e
  simp only [if_true] at e
  exact UnifyStatus.noConfusion (congrArg Prod.fst e)

/-- C1, amended: rules 1 and 2 are as claimed; otherwise unify_simple
dispatches on whichever side is metavariable-headed, preferring lhs: the
pattern rule is applied to that side only (Unsupported when it is not a
simple pattern or when the other side is headed by the same metavariable;
otherwise the occurs/scope check on the other side decides Failed versus
Solved-with-assignment), and a simple-pattern rhs is never consulted when
lhs is metavariable-headed; when neither side is metavariable-headed the
result is Unsupported. -/
theorem c1_amended (s : Substitution) (lhs rhs : Expr) (j : Justification) :
    (lhs = rhs → unifySimple s lhs rhs j = (Solved, s)) ∧
    (lhs ≠ rhs → hasMetavar lhs = false → hasMetavar rhs = false →
      unifySimple s lhs rhs j = (Failed, s)) ∧
    (lhs ≠ rhs → (hasMetavar lhs = true ∨ hasMetavar rhs = true) → lhs.isMeta = true →
      unifySimple s lhs rhs j = unifySimpleCore s lhs rhs j ∧
      ((isSimpleMeta lhs = none → unifySimple s lhs rhs j = (Unsupported, s)) ∧
       (∀ m args, isSimpleMeta lhs = some (m, args) →
         (rhs.isMeta = true → rhs.getAppFn = m → unifySimple s lhs rhs j = (Unsupported, s)) ∧
         (¬(rhs.isMeta = true ∧ rhs.getAppFn = m) →
           unifySimple s lhs rhs j =
             (if occursContextCheck rhs m args then
               (Solved, s.assignE m.mlocalName (lambdaAbstractLocals rhs args) j)
             else (Failed, s)))))) ∧
    (lhs ≠ rhs → (hasMetavar lhs = true ∨ hasMetavar rhs = true) → lhs.isMeta = false →
      rhs.isMeta = true →
      unifySimple s lhs rhs j = unifySimpleCore s rhs lhs j ∧
      ((isSimpleMeta rhs = none → unifySimple s lhs rhs j = (Unsupported, s)) ∧
       (∀ m args, isSimpleMeta rhs = some (m, args) →
         (lhs.isMeta = true → lhs.getAppFn = m → unifySimple s lhs rhs j = (Unsupported, s)) ∧
         (¬(lhs.isMeta = true ∧ lhs.getAppFn = m) →
           unifySimple s lhs rhs j =
             (if occursContextCheck lhs m args then
               (Solved, s.assignE m.mlocalName (lambdaAbstractLocals lhs args) j)
             else (Failed, s)))))) ∧
    (lhs ≠ rhs → (hasMetavar lhs = true ∨ hasMetavar rhs = true) → lhs.isMeta = false →
      rhs.isMeta = false → unifySimple s lhs rhs j = (Unsupported, s)) := by
  refine ⟨?_, ?_, ?_, ?_, ?_⟩
  · intro h; simp [unifySimple, h]
  · intro h1 h2 h3; simp [unifySimple, h1, h2, h3]
  · intro h1 h2 h3
    have hbase : unifySimple s lhs rhs j = unifySimpleCore s lhs rhs j := by
      rcases h2 with h | h <;> simp [unifySimple, h1, h, h3]
    refine ⟨hbase, ?_, ?_⟩
    · intro hnone; rw [hbase]; simp [unifySimpleCore, hnone]
    · intro m args hsome
      constructor
      · intro hrm hfn; rw [hbase]; simp [unifySimpleCore, hsome, hrm, hfn]
      · intro hnot; rw [hbase]
        have hc : (rhs.isMeta && (rhs.getAppFn == m)) = false := by
          rcases Bool.eq_false_or_eq_true rhs.isMeta with h | h
          · simp [h]; exact fun he => hnot ⟨h, he⟩
          · simp [h]
        simp only [unifySimpleCore, hsome, hc, Bool.false_eq_true, if_false]
        rcases Bool.eq_false_or_eq_true (occursContextCheck rhs m args) with h | h <;>
          simp [h]
  · intro h1 h2 h3 h4
    have hbase : unifySimple s lhs rhs j = unifySimpleCore s rhs lhs j := by
      rcases h2 with h | h <;> simp [unifySimple, h1, h, h3, h4]
    refine ⟨hbase, ?_, ?_⟩
    · intro hnone; rw [hbase]; simp [unifySimpleCore, hnone]
    · intro m args hsome
      constructor
      · intro hrm hfn; rw [hbase]; simp [unifySimpleCore, hsome, hrm, hfn]
      · intro hnot; rw [hbase]
        have hc : (lhs.isMeta && (lhs.getAppFn == m)) = false := by
          rcases Bool.eq_false_or_eq_true lhs.isMeta with h | h
          · simp [h]; exact fun he => hnot ⟨h, he⟩
          · simp [h]
        simp only [unifySimpleCore, hsome, hc, Bool.false_eq_true, if_false]
        rcases Bool.eq_false_or_eq_true (occursContextCheck lhs m args) with h | h <;>
          simp [h]
  · intro h1 h2 h3 h4
    rcases h2 with h | h <;> simp [unifySimple, h1, h, h3, h4]

/-! Claim C10: the convenience entry point and use_exception = false. -/

/-- With use_exception disabled, draining never raises the
no-more-solutions exception. -/
theorem drain_ne_unifierEx (env : UEnv) (f : Nat) (st : UState) (j : Justification)
    (h : env.useException = false) : drain env f st ≠ .unifierEx j := by
  unfold drain
  cases hr : run env f .solveLoop st with
  | res ok st2 => exact fun he => NextRes.noConfusion he
  | mres s st2 => exact fun he => NextRes.noConfusion he
  | loopRes ok st2 =>
    cases ok
    · simp only [failureR, h, Bool.false_eq_true, if_false]
      exact fun he => NextRes.noConfusion he
    · exact fun he => NextRes.noConfusion he
  | stepLimitEx => exact fun he => NextRes.noConfusion he
  | noFuel => exact fun he => NextRes.noConfusion he

/-- C10, confirmed: the convenience entry point constructs its engine with
use_exception = false; a false initial definitional-equality verdict or a
Failed status from unify_simple on an emitted constraint yields the empty
stream without constructing the engine; and with use_exception = false
the solution stream never raises the no-more-solutions exception
(failure() returns end-of-stream instead). -/
theorem c10_entry_no_exception :
    (∀ (env : UEnv) (lhs rhs : Expr) (g : NameGen) (ms : Nat) (bE : Bool) (msE : Nat)
       (csE : List Constraint) (gE : NameGen) (sE : Substitution),
      unifyExprEntry env lhs rhs g ms = .engineStream bE msE csE gE sE → bE = false) ∧
    (∀ (env : UEnv) (lhs rhs : Expr) (g : NameGen) (ms : Nat),
      (env.isDefEq lhs rhs .noneJ).1 = false ∨
        (unifyEntryFold Substitution.empty false [] (env.isDefEq lhs rhs .noneJ).2).2.1 = true →
      unifyExprEntry env lhs rhs g ms = .emptyStream) ∧
    (∀ (env : UEnv) (f : Nat) (st : UState) (j : Justification),
      env.useException = false → nextSolution env f st ≠ .unifierEx j) := by
  refine ⟨?_, ?_, ?_⟩
  · intro env lhs rhs g ms bE msE csE gE sE h
    simp only [unifyExprEntry] at h
    by_cases hb : (!(env.isDefEq lhs rhs .noneJ).1 ||
        (unifyEntryFold Substitution.empty false [] (env.isDefEq lhs rhs .noneJ).2).2.1)
        = true
    · rw [if_pos hb] at h
      exact UnifyResult.noConfusion h
    · rw [if_neg hb] at h
      by_cases hcs : (unifyEntryFold Substitution.empty false []
          (env.isDefEq lhs rhs .noneJ).2).2.2.isEmpty = true
      · rw [if_pos hcs] at h
        exact UnifyResult.noConfusion h
      · rw [if_neg hcs] at h
        injection h with h1 h2 h3 h4 h5
        exact h1.symm
  · intro env lhs rhs g ms hfail
    have hb : (!(env.isDefEq lhs rhs .noneJ).1 ||
        (unifyEntryFold Substitution.empty false [] (env.isDefEq lhs rhs .noneJ).2).2.1)
        = true := by
      rcases hfail with hh | hh <;> simp [hh]
    simp only [unifyExprEntry]
    rw [if_pos hb]
  · intro env f st j h
    unfold nextSolution
    by_cases hc : st.inConflict = true
    · simp only [hc, if_true, failureR, h, Bool.false_eq_true, if_false]
      exact fun he => NextRes.noConfusion he
    · have hc2 : st.inConflict = false := Bool.eq_false_iff.mpr hc
      simp only [hc2, Bool.false_eq_true, if_false]
      by_cases hcs : st.caseSplits.isEmpty = true
      · simp only [hcs, Bool.not_true, Bool.false_eq_true, if_false]
        by_cases hf : st.first = true
        · simp only [hf, if_true]
          exact drain_ne_unifierEx env f _ j h
        · simp only [Bool.eq_false_iff.mpr hf, Bool.false_eq_true, if_false]
          exact fun he => NextRes.noConfusion he
      · simp only [Bool.eq_false_iff.mpr hcs, Bool.not_false, if_true]
        cases hr : run env f .resolveConflict (st.setConflict (allAssumptions st)) with
        | res ok st2 =>
          cases ok
          · simp only [hr, failureR, h, Bool.false_eq_true, if_false]
            exact fun he => NextRes.noConfusion he
          · simp only [hr]
            exact drain_ne_unifierEx env f st2 j h
        | mres s st2 => simp only [hr]; exact fun he => NextRes.noConfusion he
        | loopRes ok st2 => simp only [hr]; exact fun he => NextRes.noConfusion he
        | stepLimitEx => simp only [hr]; exact fun he => NextRes.noConfusion he
        | noFuel => simp only [hr]; exact fun he => NextRes.noConfusion he

/-- C10, witness: with an oracle whose initial def-eq verdict is false the
entry point returns the empty stream, and the no-exception engine never
raises the no-more-solutions exception on a concrete state. -/
theorem c10_entry_no_exception_witness :
    unifyExprEntry denyEnv T0 T0 0 5 = .emptyStream ∧
    nextSolution denyEnv 3 stInit ≠ .unifierEx (.atomic 0) :=
  ⟨c10_entry_no_exception.2.1 denyEnv T0 T0 0 5 (Or.inl rfl),
   c10_entry_no_exception.2.2 denyEnv 3 stInit (.atomic 0) rfl⟩

/-! Claim C5: the retry of definitional equality after weak-head
normalization in process_eq_constraint. -/


/-- process_metavar_eq returns Continue with the state untouched under
metavarEqContinue. -/
theorem metavarEqE_continue (env : UEnv) (f : Nat) (lhs rhs : Expr) (j : Justification)
    (st : UState) (h : metavarEqContinue lhs rhs = true) :
    run env (f + 1) (.metavarEqE lhs rhs j) st = .mres .cont st := by
  by_cases hm : lhs.isMeta = true
  · cases hsm : isSimpleMeta lhs with
    | none => simp [run, hm, hsm]
    | some p =>
      obtain ⟨m, args⟩ := p
      simp only [metavarEqContinue, hm, if_true, hsm] at h
      simp [run, hm, hsm, h]
  · have hm2 : lhs.isMeta = false := by simp at hm; exact hm
    simp [run, hm2]


/-- C5, counterexample: the source compares the reduced sides against the
constraint's original sides, not against the instantiated sides, so with
an identity whnf (reduction changes nothing) but an instantiation that
changed the left side, the def-eq check is still retried: with an oracle
answering false the engine sets the conflict and fails where the claim
requires classification and success. -/
theorem c5_counterexample : ¬ claimC5Statement := by
  intro h
  have e := (h denyEnv 7 (.app (.const 0 []) (.meta 10 T0))
    (.app (.const 0 []) (.app (.meta 11 T0) (.const 2 []))) (.atomic 7)
    { stInit with subst := Substitution.empty.assignE 10 (.const 1 []) (.atomic 5) }
    (.app (.const 0 []) (.const 1 []))
    (.app (.const 0 []) (.app (.meta 11 T0) (.const 2 [])))
    (.atomic 5) .noneJ [] [] [] [11] rfl rfl (by decide) (Or.inr (by decide))
    (by decide) (by decide) rfl).1 rfl rfl
  obtain ⟨st2, he, _⟩ := e
  rw [show run denyEnv 9
      (.processEq (.eq (.app (.const 0 []) (.meta 10 T0))
        (.app (.const 0 []) (.app (.meta 11 T0) (.const 2 []))) (.atomic 7)))
      { stInit with subst := Substitution.empty.assignE 10 (.const 1 []) (.atomic 5) } =
      .res false (UState.setConflict
        { stInit with subst := Substitution.empty.assignE 10 (.const 1 []) (.atomic 5) }
        (.composite (.atomic 7) (.atomic 5))) from rfl] at he
  exact Bool.noConfusion (congrArg (fun o => match o with
    | Out.res b _ => b
    | _ => true) he)

/-- C5, amended: under the same hypotheses, the def-eq check is retried
exactly when the instantiated-and-reduced sides differ from the
constraint's original sides (not when reduction alone changed them); the
verdict then decides between discharge and conflict as claimed, and only
when both reduced sides equal the original sides is the constraint
classified and enqueued. -/
theorem c5_amended (env : UEnv) (f : Nat) (lhs0 rhs0 : Expr) (j0 : Justification)
    (st : UState) (lhs1 rhs1 : Expr) (jl jr : Justification) (ul1 ue1 ul2 ue2 : List Name)
    (h1 : instExpr st.subst lhs0 = (lhs1, jl, ul1, ue1))
    (h2 : instExpr st.subst rhs0 = (rhs1, jr, ul2, ue2))
    (hne : lhs1 ≠ rhs1)
    (hmv : hasMetavar lhs1 = true ∨ hasMetavar rhs1 = true)
    (hc1 : metavarEqContinue lhs1 rhs1 = true)
    (hc2 : metavarEqContinue rhs1 lhs1 = true)
    (hemit : (env.isDefEq (env.whnf lhs1) (env.whnf rhs1) ((j0.comp1 jl).comp1 jr)).2 = []) :
    (env.whnf lhs1 ≠ lhs0 ∨ env.whnf rhs1 ≠ rhs0 →
      run env (f + 2) (.processEq (.eq lhs0 rhs0 j0)) st =
        (if (env.isDefEq (env.whnf lhs1) (env.whnf rhs1) ((j0.comp1 jl).comp1 jr)).1
         then .res true st
         else .res false (st.setConflict ((j0.comp1 jl).comp1 jr)))) ∧
    (env.whnf lhs1 = lhs0 → env.whnf rhs1 = rhs0 →
      run env (f + 2) (.processEq (.eq lhs0 rhs0 j0)) st =
        (if (env.whnf lhs1).isMeta && (env.whnf rhs1).isMeta then
          .res true (st.addVeryDelayedCnstr (.eq lhs0 rhs0 j0) (some (ul1 ++ ul2))
            (some (ue1 ++ ue2)))
        else if (env.whnf lhs1).isMeta || (env.whnf rhs1).isMeta then
          .res true (st.addDelayedCnstr (.eq lhs0 rhs0 j0) (some (ul1 ++ ul2))
            (some (ue1 ++ ue2)))
        else .res true (st.addCnstr (.eq lhs0 rhs0 j0) (some (ul1 ++ ul2))
          (some (ue1 ++ ue2)) 0))) := by
  have hmvb : (!hasMetavar lhs1 && !hasMetavar rhs1) = false := by
    rcases hmv with h | h <;> simp [h]
  obtain ⟨g, hg⟩ : ∃ g, g = f + 1 := ⟨f + 1, rfl⟩
  have hml := metavarEqE_continue env f lhs1 rhs1 ((j0.comp1 jl).comp1 jr) st hc1
  have hmr := metavarEqE_continue env f rhs1 lhs1 ((j0.comp1 jl).comp1 jr) st hc2
  rw [← hg] at hml hmr
  constructor
  · intro hch
    rw [show f + 2 = g + 1 from by omega]
    simp only [run, h1, h2]
    rw [if_neg hne]
    simp only [hmvb, Bool.false_eq_true, if_false]
    simp only [hml, hmr]
    rw [if_pos hch, hg]
    simp only [hemit]
    rfl
  · intro heql heqr
    have hnch : ¬(env.whnf lhs1 ≠ lhs0 ∨ env.whnf rhs1 ≠ rhs0) := by
      push_neg
      exact ⟨heql, heqr⟩
    rw [show f + 2 = g + 1 from by omega]
    simp only [run, h1, h2]
    rw [if_neg hne]
    simp only [hmvb, Bool.false_eq_true, if_false]
    simp only [hml, hmr]
    rw [if_neg hnch]

/-- C5, witness for the amended theorem: the counterexample instance hits
the retry branch (the instantiated left side differs from the original),
and with the refusing oracle the conflict is set to the composed
justification. -/
theorem c5_amended_witness :
    run denyEnv 9
      (.processEq (.eq (.app (.const 0 []) (.meta 10 T0))
        (.app (.const 0 []) (.app (.meta 11 T0) (.const 2 []))) (.atomic 7)))
      { stInit with subst := Substitution.empty.assignE 10 (.const 1 []) (.atomic 5) } =
      .res false (UState.setConflict
        { stInit with subst := Substitution.empty.assignE 10 (.const 1 []) (.atomic 5) }
        (.composite (.atomic 7) (.atomic 5))) := by
  have h := (c5_amended denyEnv 7 (.app (.const 0 []) (.meta 10 T0))
    (.app (.const 0 []) (.app (.meta 11 T0) (.const 2 []))) (.atomic 7)
    { stInit with subst := Substitution.empty.assignE 10 (.const 1 []) (.atomic 5) }
    (.app (.const 0 []) (.const 1 []))
    (.app (.const 0 []) (.app (.meta 11 T0) (.const 2 [])))
    (.atomic 5) .noneJ [] [] [] [11] rfl rfl (by decide) (Or.inr (by decide))
    (by decide) (by decide) rfl).1 (Or.inl (by decide))
  rw [h]
  rfl

/-! Claim C2: the engine on an empty constraint set. -/

/-- C2, confirmed: a unifier started on an empty constraint set leaves
the constructor state untouched; the first pull on the solution stream
flips m_first, drains the empty queue and yields the initial
substitution; the second pull (m_first now false, no case splits, no
conflict) ends the stream. -/
theorem c2_empty_constraints (env : UEnv) (g : NameGen) (s : Substitution)
    (f f2 f3 : Nat) :
    startEngine env (f + 1) [] g s = .res true (mkInitialState g s) ∧
    nextSolution env (f2 + 1) (mkInitialState g s) =
      .sol s { mkInitialState g s with first := false } ∧
    nextSolution env f3 { mkInitialState g s with first := false } = .done :=
  ⟨rfl, rfl, rfl⟩

/-! Claim C3: assign and the conflict on a type mismatch. -/


/-- C3: with a type checker that judges the inferred type of v not
definitionally equal to the declared type of ?m (and emits no
constraints), assign extends the substitution and returns false with
m_conflict still unset -- the source has no set_conflict on this path
(unifier.cpp line 460), although resolve_conflict and failure, reached
right after such a false return, assert in_conflict(). -/
theorem c3_assign_type_mismatch_leaves_no_conflict :
    (denyEnv.isDefEq (Expr.meta 0 T0).mlocalType (denyEnv.infer (.const 1 [])).1
        (.atomic 7)).1 = false ∧
    run denyEnv 5 (.assignE (.meta 0 T0) (.const 1 []) (.atomic 7)) stInit =
      .res false c3State ∧
    c3State.conflict = none :=
  ⟨rfl, rfl, rfl⟩

/-! Claim C6: the endgame policy of process_flex_rigid. -/

/-- C6, confirmed: once the alternatives are generated, no alternative
sets the conflict to the constraint's justification and fails; exactly
one alternative is processed directly under the empty justification with
no case split pushed and no assumption allocated; two or more push an
ho_case_split holding the tail and process the head under a fresh
assumption justification (the split snapshots the state and bumps
m_next_assumption_idx). -/
theorem c6_flex_rigid_policy (env : UEnv) (f : Nat) (lhs rhs : Expr) (j : Justification)
    (st : UState) (alts : List (List Constraint)) (g : NameGen)
    (hfr : flexRigidAlts st.ngen lhs rhs j = (alts, g)) :
    (alts = [] →
      run env (f + 1) (.flexRigid lhs rhs j) st =
        .res false (UState.setConflict { st with ngen := g } j)) ∧
    (∀ a, alts = [a] →
      run env (f + 1) (.flexRigid lhs rhs j) st =
        run env f (.processCnstrs a .noneJ) { st with ngen := g }) ∧
    (∀ a b rest, alts = a :: b :: rest →
      run env (f + 1) (.flexRigid lhs rhs j) st =
        run env f (.processCnstrs a (.assumption st.nextAssumptionIdx))
          (pushSplit { st with ngen := g } (fun base => .ho base (b :: rest)))) := by
  refine ⟨?_, ?_, ?_⟩
  · intro h
    subst h
    simp [run, hfr]
  · intro a h
    subst h
    simp [run, hfr]
  · intro a b rest h
    subst h
    simp [run, hfr]

/-- C6, witness: a bare metavariable against a local constant generates
no alternatives (no projections without arguments equal to the local, no
imitation of a local), so the conflict is set to the constraint's
justification. -/
theorem c6_flex_rigid_policy_witness :
    flexRigidAlts stInit.ngen (.meta 0 T0) (.localE 100 0 T0) (.atomic 3) = ([], 1) ∧
    run denyEnv 3 (.flexRigid (.meta 0 T0) (.localE 100 0 T0) (.atomic 3)) stInit =
      .res false (UState.setConflict { stInit with ngen := 1 } (.atomic 3)) :=
  ⟨rfl,
   (c6_flex_rigid_policy denyEnv 2 (.meta 0 T0) (.localE 100 0 T0) (.atomic 3) stInit
      [] 1 rfl).1 rfl⟩

/-! Claim C4: the step counter and the step-limit exception. -/

/-- C4, counterexample: with max_steps = 0 the first dispatch still
succeeds (the counter 0 does not exceed 0 and is then incremented), so
the exception arrives after 1 iteration, not 0. -/
theorem c4_counterexample : ¬ claimC4Statement := by
  intro h
  have e := h 0 2 (by decide)
  rw [show dispatchIters 2 0 0 = 1 from rfl] at e
  exact Nat.one_ne_zero e

/-- Exact count of completed dispatches from an arbitrary counter. -/
theorem dispatchIters_from (f : Nat) : ∀ n maxSteps, n ≤ maxSteps + 1 →
    maxSteps + 2 - n ≤ f → dispatchIters f n maxSteps = maxSteps + 1 - n := by
  induction f with
  | zero => intro n ms h1 h2; omega
  | succ f ih =>
    intro n ms h1 h2
    by_cases hgt : n > ms
    · have hn : n = ms + 1 := by omega
      subst hn
      simp [dispatchIters, checkSystemCore]
    · simp only [dispatchIters, checkSystemCore, if_neg hgt]
      rw [ih (n + 1) ms (by omega) (by omega)]
      omega

/-- C4, amended: check_system raises exactly when the pre-increment
counter exceeds max_steps (the check precedes the increment), so a
workload that never empties the queue completes exactly max_steps + 1
dispatch iterations before the step-limit exception; at engine level a
dispatch with counter beyond max_steps raises immediately. -/
theorem c4_amended :
    (∀ numSteps maxSteps : Nat,
      checkSystemCore numSteps maxSteps = none ↔ maxSteps < numSteps) ∧
    (∀ maxSteps f : Nat, maxSteps + 2 ≤ f → dispatchIters f 0 maxSteps = maxSteps + 1) ∧
    (∀ (env : UEnv) (f : Nat) (c : Constraint) (st : UState), st.conflict = none →
      env.maxSteps < st.numSteps →
      run env (f + 1) (.processConstraint c) st = .stepLimitEx) := by
  refine ⟨?_, ?_, ?_⟩
  · intro n ms
    constructor
    · intro h
      by_cases hgt : ms < n
      · exact hgt
      · simp [checkSystemCore, hgt] at h
    · intro h; simp [checkSystemCore, h]
  · intro ms f hf
    have h := dispatchIters_from f 0 ms (by omega) (by omega)
    simpa using h
  · intro env f c st hc hlt
    simp only [run]
    rw [show st.inConflict = false from by simp [UState.inConflict, hc]]
    simp [checkSystem, checkSystemCore, hlt]

/-- C4, witness: the amended statement at max_steps 3 (four completed
iterations) and a concrete over-budget dispatch raising the exception. -/
theorem c4_amended_witness :
    checkSystemCore 5 3 = none ∧ dispatchIters 10 0 3 = 4 ∧
    run denyEnv 1 (.processConstraint (.eq T0 T0 .noneJ)) { stInit with numSteps := 101 }
      = .stepLimitEx :=
  ⟨(c4_amended.1 5 3).mpr (by decide),
   c4_amended.2.1 3 10 (by decide),
   c4_amended.2.2 denyEnv 0 (.eq T0 T0 .noneJ) { stInit with numSteps := 101 } rfl
     (by decide)⟩

/-! Claim C7: the projection alternatives of process_flex_rigid. -/


/-- The projection loop against the positional description, generalized
over the enumeration offset. -/
theorem projAlts_enumFrom (rhs m mtype : Expr) (j : Justification) :
    ∀ (l : List Expr) (n K : Nat), K = n + l.length →
    projAlts l (K - n - 1) rhs m mtype j =
      (List.enumFrom n l).filterMap (fun p =>
        if p.2.isLocal = true ∧ p.2 = rhs then
          some [Constraint.eq m (mkLambdaFor mtype (.var (K - (p.1 + 1)))) j]
        else if p.2.isLocal = false ∧ rhs.isLocal = false then
          some [Constraint.eq p.2 rhs j,
                Constraint.eq m (mkLambdaFor mtype (.var (K - (p.1 + 1)))) j]
        else none) := by
  intro l
  induction l with
  | nil => intro n K h; simp [projAlts]
  | cons a rest ih =>
    intro n K hK
    rw [List.enumFrom_cons, List.filterMap_cons]
    have hidx : K - n - 1 = K - (n + 1) := by omega
    have ihr := ih (n + 1) K (by simp only [hK, List.length_cons]; omega)
    simp only [projAlts, hidx]
    rw [ihr]
    by_cases hl : a.isLocal = true
    · by_cases heq : a = rhs
      · have hrl : rhs.isLocal = true := heq ▸ hl
        simp [hl, heq, hrl]
      · simp [hl, heq]
    · have hl2 : a.isLocal = false := by simp at hl; exact hl
      by_cases hr : rhs.isLocal = true
      · simp [hl2, hr]
      · have hr2 : rhs.isLocal = false := by simp at hr; exact hr
        simp [hl2, hr2]

/-- C7, confirmed: the projection alternatives generated by
process_flex_rigid coincide with the claim's positional description. -/
theorem c7_projection_generation (margs : List Expr) (rhs m mtype : Expr)
    (j : Justification) :
    projAlts margs (margs.length - 1) rhs m mtype j = claimProjAlts margs rhs m mtype j := by
  have h := projAlts_enumFrom rhs m mtype j margs 0 margs.length (by simp)
  rw [show margs.length - 0 - 1 = margs.length - 1 from by omega] at h
  rw [h]
  rfl

/-! Claim C8: the insertion-id bands of the constraint queue. -/

/-- Every insertion advances m_next_cidx by one. -/
theorem addBandCnstr_nextCidx (st : UState) (b : Band) :
    (addBandCnstr st b).nextCidx = st.nextCidx + 1 := by
  cases b <;> rfl

/-- The counter after a sequence of insertions. -/
theorem runInserts_nextCidx : ∀ (bs : List Band) (st : UState),
    (runInserts st bs).nextCidx = st.nextCidx + bs.length := by
  intro bs
  induction bs with
  | nil => intro st; simp [runInserts]
  | cons b rest ih =>
    intro st
    simp [runInserts, ih, addBandCnstr_nextCidx]
    omega

/-- The id of the i-th insertion from a fresh engine is i plus the band
base. -/
theorem idOfInsert_eq (bs : List Band) (i : Fin bs.length) :
    idOfInsert bs i = i.1 + bandStart (bs.get i) := by
  unfold idOfInsert
  rw [runInserts_nextCidx]
  have h2 : (bs.take i.1).length = i.1 := by
    simp only [List.length_take]
    have := i.2
    omega
  simp [stInit, mkInitialState, h2]


/-- From the claim's regular-band bound, every position of a long enough
all-regular insertion sequence is below g_first_delayed; kept generic in
N so that no large literal is ever evaluated. -/
theorem c8_regular_band_bound (N : Nat) (h : claimC8Statement) : N < gFirstDelayed := by
  have hlen : (List.replicate (N + 1) Band.regular).length = N + 1 :=
    List.length_replicate _ _
  have hidx : N < (List.replicate (N + 1) Band.regular).length := by rw [hlen]; omega
  have hget : (List.replicate (N + 1) Band.regular).get ⟨N, hidx⟩ = Band.regular :=
    List.get_replicate _ _
  have hb := (h.1 (List.replicate (N + 1) Band.regular) ⟨N, hidx⟩).1 hget
  rw [idOfInsert_eq, hget] at hb
  simpa [bandStart] using hb

/-- C8, counterexample: m_next_cidx is a single counter shared by all
bands, so after 2^28 insertions the next regular constraint receives the
id 2^28, which lies in the claimed delayed band, not in [0, 2^28): the
claim would force 2^28 < 2^28. -/
theorem c8_counterexample : ¬ claimC8Statement := fun h =>
  Nat.lt_irrefl gFirstDelayed (c8_regular_band_bound gFirstDelayed h)

/-- C8, amended: the bands hold as claimed provided the total number of
insertions stays within 2^28 (the step budget enforces this in practice);
each insertion then receives its position plus the band base, regular ids
lie in [0, 2^28), delayed ids in [2^28, 2^30), very-delayed ids at or
above 2^30, and the cross-band orderings follow. -/
theorem c8_amended (bs : List Band) (hlen : bs.length ≤ 2 ^ 28) :
    (∀ i : Fin bs.length,
      idOfInsert bs i = i.1 + bandStart (bs.get i) ∧
      (bs.get i = .regular → idOfInsert bs i < gFirstDelayed) ∧
      (bs.get i = .delayed →
        gFirstDelayed ≤ idOfInsert bs i ∧ idOfInsert bs i < gFirstVeryDelayed) ∧
      (bs.get i = .veryDelayed → gFirstVeryDelayed ≤ idOfInsert bs i)) ∧
    (∀ i k : Fin bs.length,
      (bs.get i = .regular → bs.get k = .delayed → idOfInsert bs i < idOfInsert bs k) ∧
      (bs.get i = .delayed → bs.get k = .veryDelayed → idOfInsert bs i < idOfInsert bs k)) := by
  have hpow : (2 : Nat) ^ 28 < 2 ^ 30 := by norm_num
  constructor
  · intro i
    refine ⟨idOfInsert_eq bs i, ?_, ?_, ?_⟩
    · intro hreg
      rw [idOfInsert_eq, hreg]
      simp only [bandStart, gFirstDelayed]
      have : i.1 < bs.length := i.2
      omega
    · intro hdel
      rw [idOfInsert_eq, hdel]
      simp only [bandStart, gFirstDelayed, gFirstVeryDelayed]
      have : i.1 < bs.length := i.2
      constructor <;> [omega; skip]
      have h30 : (2 : Nat) ^ 30 = 2 ^ 28 + 2 ^ 28 + 2 ^ 29 := by norm_num
      omega
    · intro hvd
      rw [idOfInsert_eq, hvd]
      simp only [bandStart, gFirstVeryDelayed]
      omega
  · intro i k
    constructor
    · intro hreg hdel
      rw [idOfInsert_eq, idOfInsert_eq, hreg, hdel]
      simp only [bandStart, gFirstDelayed]
      have : i.1 < bs.length := i.2
      omega
    · intro hdel hvd
      rw [idOfInsert_eq, idOfInsert_eq, hdel, hvd]
      simp only [bandStart, gFirstDelayed, gFirstVeryDelayed]
      have : i.1 < bs.length := i.2
      have h30 : (2 : Nat) ^ 30 = 2 ^ 28 + 2 ^ 28 + 2 ^ 29 := by norm_num
      omega

/-- C8, witness: the amended statement on the three-element sequence
regular, delayed, very-delayed. -/
theorem c8_amended_witness :
    idOfInsert [Band.regular, Band.delayed, Band.veryDelayed] ⟨0, by decide⟩ <
      idOfInsert [Band.regular, Band.delayed, Band.veryDelayed] ⟨1, by decide⟩ ∧
    idOfInsert [Band.regular, Band.delayed, Band.veryDelayed] ⟨1, by decide⟩ <
      idOfInsert [Band.regular, Band.delayed, Band.veryDelayed] ⟨2, by decide⟩ :=
  ⟨((c8_amended [Band.regular, Band.delayed, Band.veryDelayed] (by norm_num)).2
      ⟨0, by decide⟩ ⟨1, by decide⟩).1 rfl rfl,
   ((c8_amended [Band.regular, Band.delayed, Band.veryDelayed] (by norm_num)).2
      ⟨1, by decide⟩ ⟨2, by decide⟩).2 rfl rfl⟩

/-! Claim C9: symmetry of unify_simple up to Solved/Failed. -/

/-- A level metavariable node from isMeta. -/
theorem meta_of_isMetaLvl (l : Level) (h : l.isMeta = true) : ∃ n, l = .meta n := by
  cases l <;> simp [Level.isMeta] at h
  exact ⟨_, rfl⟩

/-- Status symmetry of the level simple unifier, one unfolding step
(recursion handled through hrec). -/
theorem lvl_symm_aux (a b : Level) (s : Substitution) (j : Justification)
    (hrec : ∀ x y, a = .succ x → b = .succ y →
      (unifySimpleLvl s x y j).1 = (unifySimpleLvl s y x j).1) :
    (unifySimpleLvl s a b j).1 = (unifySimpleLvl s b a j).1 := by
  by_cases hab : a = b
  · subst hab; rfl
  · have hba : b ≠ a := fun h => hab h.symm
    rw [unifySimpleLvl.eq_def, unifySimpleLvl.eq_def]
    simp only [if_neg hab, if_neg hba]
    by_cases hm : (!a.hasMeta && !b.hasMeta) = true
    · have hm2 : (!b.hasMeta && !a.hasMeta) = true := by rw [Bool.and_comm] at hm; exact hm
      simp only [hm, hm2, if_true]
    · have hm2 : ¬((!b.hasMeta && !a.hasMeta) = true) := by rw [Bool.and_comm]; exact hm
      simp only [if_neg hm, if_neg hm2]
      by_cases hma : a.isMeta = true
      · by_cases hmb : b.isMeta = true
        · obtain ⟨na, rfl⟩ := meta_of_isMetaLvl a hma
          obtain ⟨nb, rfl⟩ := meta_of_isMetaLvl b hmb
          simp only [hma, hmb, if_true]
          simp [unifySimpleCoreLvl, occursLvl, hab, hba]
        · simp only [hma, if_true, Bool.false_eq_true, if_false,
            (by simp [hmb] : b.isMeta = false)]
      · by_cases hmb : b.isMeta = true
        · simp only [hmb, if_true, Bool.false_eq_true, if_false,
            (by simp [hma] : a.isMeta = false)]
        · simp only [(by simp [hma] : a.isMeta = false),
            (by simp [hmb] : b.isMeta = false), Bool.false_eq_true, if_false]
          cases a <;> cases b <;> first
            | exact hrec _ _ rfl rfl
            | rfl

/-- Status symmetry of unify_simple for levels. -/
theorem unifySimpleLvl_fst_symm (a : Level) : ∀ (b : Level) (s : Substitution)
    (j : Justification), (unifySimpleLvl s a b j).1 = (unifySimpleLvl s b a j).1 := by
  induction a with
  | zero => intro b s j; exact lvl_symm_aux _ _ _ _ (fun x y hx _ => by cases hx)
  | succ x ih => intro b s j
                 exact lvl_symm_aux _ _ _ _ (fun x2 y hx _ => by cases hx; exact ih y s j)
  | maxL p q ihp ihq => intro b s j; exact lvl_symm_aux _ _ _ _ (fun x y hx _ => by cases hx)
  | imaxL p q ihp ihq => intro b s j; exact lvl_symm_aux _ _ _ _ (fun x y hx _ => by cases hx)
  | param n => intro b s j; exact lvl_symm_aux _ _ _ _ (fun x y hx _ => by cases hx)
  | meta n => intro b s j; exact lvl_symm_aux _ _ _ _ (fun x y hx _ => by cases hx)

/-- Full symmetry of unify_simple for expressions when at most one side is
metavariable-headed (both directions then run the same core call). -/
theorem unifySimple_symm_of_not_both_meta (s : Substitution) (a b : Expr)
    (j : Justification) (hnot : ¬(a.isMeta = true ∧ b.isMeta = true)) :
    unifySimple s a b j = unifySimple s b a j := by
  by_cases hab : a = b
  · subst hab; rfl
  · have hba : b ≠ a := fun h => hab h.symm
    simp only [unifySimple]
    by_cases hm : (!hasMetavar a && !hasMetavar b) = true
    · have hm2 : (!hasMetavar b && !hasMetavar a) = true := by
        rw [Bool.and_comm] at hm; exact hm
      simp only [if_neg hab, if_neg hba, hm, hm2, if_true]
    · have hm2 : ¬((!hasMetavar b && !hasMetavar a) = true) := by
        rw [Bool.and_comm]; exact hm
      simp only [if_neg hab, if_neg hba, if_neg hm, if_neg hm2]
      by_cases hma : a.isMeta = true
      · have hmb : b.isMeta = false := by
          cases hb : b.isMeta
          · rfl
          · exact absurd ⟨hma, hb⟩ hnot
        simp only [hma, hmb, if_true, Bool.false_eq_true, if_false]
      · by_cases hmb : b.isMeta = true
        · simp only [hmb, (by simp [hma] : a.isMeta = false), if_true,
            Bool.false_eq_true, if_false]
        · simp only [(by simp [hma] : a.isMeta = false),
            (by simp [hmb] : b.isMeta = false), Bool.false_eq_true, if_false]


/-- C9, counterexample: for a = ?m x y and b = ?n x (x, y distinct locals)
the forward direction Solves (assigning ?m), while the swapped direction
Fails the scope check (y is outside {x}), so even the Solved/Failed
statuses are not symmetric. -/
theorem c9_counterexample : ¬ claimC9Statement := by
  intro h
  have e := h.1 Substitution.empty
    (.app (.app (.meta 0 T0) (.localE 100 0 T0)) (.localE 101 0 T0))
    (.app (.meta 1 T0) (.localE 100 0 T0)) (.atomic 1) (Or.inl (by decide))
  rw [show (unifySimple Substitution.empty
      (.app (.app (.meta 0 T0) (.localE 100 0 T0)) (.localE 101 0 T0))
      (.app (.meta 1 T0) (.localE 100 0 T0)) (.atomic 1)).1 = Solved from by decide] at e
  rw [show (unifySimple Substitution.empty (.app (.meta 1 T0) (.localE 100 0 T0))
      (.app (.app (.meta 0 T0) (.localE 100 0 T0)) (.localE 101 0 T0)) (.atomic 1)).1
      = Failed from by decide] at e
  exact UnifyStatus.noConfusion e

/-- C9, amended: for universe levels unify_simple is symmetric in status
unconditionally; for expressions it is symmetric (indeed returns identical
results) whenever at most one side is metavariable-headed -- when both
sides are metavariable-headed symmetry can fail, as the counterexample
shows. -/
theorem c9_amended :
    (∀ (s : Substitution) (a b : Expr) (j : Justification),
      ¬(a.isMeta = true ∧ b.isMeta = true) → unifySimple s a b j = unifySimple s b a j) ∧
    (∀ (s : Substitution) (a b : Level) (j : Justification),
      (unifySimpleLvl s a b j).1 = (unifySimpleLvl s b a j).1) :=
  ⟨unifySimple_symm_of_not_both_meta, fun s a b j => unifySimpleLvl_fst_symm a b s j⟩

/-- C9, witness: the amended symmetry applied at a constant versus a
metavariable and at the levels zero versus succ of a meta. -/
theorem c9_amended_witness :
    unifySimple Substitution.empty (.const 5 []) (.meta 1 T0) (.atomic 1) =
      unifySimple Substitution.empty (.meta 1 T0) (.const 5 []) (.atomic 1) ∧
    (unifySimpleLvl Substitution.empty .zero (.succ (.meta 0)) (.atomic 1)).1 =
      (unifySimpleLvl Substitution.empty (.succ (.meta 0)) .zero (.atomic 1)).1 :=
  ⟨c9_amended.1 Substitution.empty (.const 5 []) (.meta 1 T0) (.atomic 1)
      (fun hp => by exact absurd hp.1 (by decide)),
   c9_amended.2 Substitution.empty .zero (.succ (.meta 0)) (.atomic 1)⟩

/-- C1, witness for the amended theorem: rule 1 at a reflexive pair and
the Solved pattern case at ?m x =?= x. -/
theorem c1_amended_witness :
    unifySimple Substitution.empty T0 T0 (.atomic 1) = (Solved, Substitution.empty) ∧
    unifySimple Substitution.empty (.app (.meta 0 T0) (.localE 100 0 T0)) (.localE 100 0 T0)
        (.atomic 1) =
      (Solved, Substitution.empty.assignE 0
        (lambdaAbstractLocals (.localE 100 0 T0) [.localE 100 0 T0]) (.atomic 1)) := by
  constructor
  · exact (c1_amended Substitution.empty T0 T0 (.atomic 1)).1 rfl
  · have h3 := (c1_amended Substitution.empty (.app (.meta 0 T0) (.localE 100 0 T0))
      (.localE 100 0 T0) (.atomic 1)).2.2.1 (by decide) (Or.inl (by decide)) (by decide)
    have h := (h3.2.2 (.meta 0 T0) [.localE 100 0 T0] (by decide)).2 (by decide)
    rw [show occursContextCheck (.localE 100 0 T0) (.meta 0 T0) [.localE 100 0 T0] = true from
      by decide] at h
    simpa using h

end Unif
